import Mathlib

/-!
# A verification of the `aglearn` rule learner and rule checker

This file is a shallow embedding of `aglearn.py`: the artificial-language
grammar learner (`AGLearner.train`) and the per-sequence rule checker
(the violation-decoding portion of `AGLearner.test`).

Python dicts are modelled as association lists.  A `defaultdict` read of an
absent key returns the default value *and inserts it* (as in Python), so the
stateful read is modelled by `ddGet`, returning the value and the updated
dict.  A plain-dict read of an absent key raises `KeyError`, modelled with
`Except String`.  Python sets are modelled as duplicate-free lists built by
`setAdd`; membership is the observable.  File I/O and the external n-gram
model (`NgramModel`) are out of scope and omitted; `trainCorpus` consumes the
corpus as a list of token lists (one per input line).
-/

namespace AGLearn

/-- The fixed six-symbol alphabet (`SYMBOLS` in `aglearn.py`). -/
def SYMBOLS : List String := ["a", "c", "d", "e", "f", "g"]

/-- Sequence-start marker (`START_SYM`); only used by the external n-gram model. -/
def START_SYM : String := "^"

/-- Sequence-end marker (`END_SYM`); only used by the external n-gram model. -/
def END_SYM : String := "$"

/-- Association-list model of a Python dict keyed by strings. -/
abbrev Dict (α : Type) := List (String × α)

/-- Plain dict lookup; `none` models a `KeyError`. -/
def dGet? {α : Type} : Dict α → String → Option α
  | [], _ => none
  | (k', v) :: rest, k => if k' = k then some v else dGet? rest k

/-- Dict update `d[k] = v`: replaces the binding in place, appends if absent. -/
def dSet {α : Type} : Dict α → String → α → Dict α
  | [], k, v => [(k, v)]
  | (k', v') :: rest, k, v =>
      if k' = k then (k, v) :: rest else (k', v') :: dSet rest k v

/-- `defaultdict` read `d[k]`: returns the stored value, or returns the default
and inserts it when `k` is absent (Python's auto-initializing access). -/
def ddGet {α : Type} (dflt : α) (d : Dict α) (k : String) : α × Dict α :=
  match dGet? d k with
  | some v => (v, d)
  | none => (dflt, d ++ [(k, dflt)])

/-- Pure lookup with a default: the value-level observation of a defaultdict. -/
def lookupD {α : Type} (dflt : α) (d : Dict α) (k : String) : α :=
  (dGet? d k).getD dflt

/-- Python `set.add` on the duplicate-free list model of a set. -/
def setAdd (s : List String) (x : String) : List String :=
  if x ∈ s then s else s ++ [x]

/-- Python `set(l)`: deduplicate a token list. -/
def pySet (l : List String) : List String := l.foldl setAdd []

/-- Python set union `s | t`. -/
def setUnion (s t : List String) : List String := t.foldl setAdd s

/-- Python set intersection `s & t`. -/
def setInter (s t : List String) : List String := s.filter (fun x => x ∈ t)

/-- Python set difference `s - t`. -/
def setDiff (s t : List String) : List String := s.filter (fun x => x ∉ t)

/-- Python `set.remove` with no effect when the element is absent. -/
def setRemove (s : List String) (x : String) : List String :=
  s.filter (fun y => y ≠ x)

/-- Python `enumerate`, with an explicit start index. -/
def enumF {α : Type} (n : Nat) : List α → List (Nat × α)
  | [] => []
  | x :: xs => (n, x) :: enumF (n + 1) xs

/-- The learner state: every table owned by an `AGLearner` instance
(`counts`, `cooccurs`, `before`, `after` and the six rule tables). -/
structure AGLearner where
  counts : Dict Nat
  cooccurs : Dict (Dict Nat)
  before : Dict (List String)
  after : Dict (List String)
  requires : Dict (List String)
  excludes : Dict (List String)
  noprecede : Dict (List String)
  nofollow : Dict (List String)
  mustprecede : Dict (List String)
  mustfollow : Dict (List String)
deriving DecidableEq

/-- `AGLearner.__init__`: counts and the learned tables are empty defaultdicts;
`before`/`after` are plain dicts with one empty set per alphabet symbol;
`mustprecede`/`mustfollow` are plain dicts initialized to the full alphabet. -/
def initLearner : AGLearner where
  counts := []
  cooccurs := []
  before := SYMBOLS.map (fun s => (s, []))
  after := SYMBOLS.map (fun s => (s, []))
  requires := []
  excludes := []
  noprecede := []
  nofollow := []
  mustprecede := SYMBOLS.map (fun s => (s, SYMBOLS))
  mustfollow := SYMBOLS.map (fun s => (s, SYMBOLS))

/-- `self.counts[sym1] += 1` (defaultdict increment). -/
def bumpCount (counts : Dict Nat) (k : String) : Dict Nat :=
  let cp := ddGet 0 counts k
  dSet cp.2 k (cp.1 + 1)

/-- `self.cooccurs[sym1][sym2] += 1` (nested defaultdict increment). -/
def bumpCo (co : Dict (Dict Nat)) (a b : String) : Dict (Dict Nat) :=
  let rp := ddGet [] co a
  let np := ddGet 0 rp.1 b
  dSet rp.2 a (dSet np.2 b (np.1 + 1))

/-- `for sym2 in syms: d[sym1].add(sym2)` over a plain dict: a `KeyError` is
raised when `sym1` is absent and the loop body runs at least once. -/
def addAll (d : Dict (List String)) (sym1 : String) (syms : List String) :
    Except String (Dict (List String)) :=
  match syms with
  | [] => .ok d
  | _ :: _ =>
      match dGet? d sym1 with
      | none => .error ("KeyError: " ++ sym1)
      | some s => .ok (dSet d sym1 (syms.foldl setAdd s))

/-- `try: d[sym1].remove(sym2) except KeyError: pass`: removing from a missing
key or removing a missing element is a silent no-op. -/
def tryRemove (d : Dict (List String)) (sym1 sym2 : String) : Dict (List String) :=
  match dGet? d sym1 with
  | none => d
  | some s => dSet d sym1 (setRemove s sym2)

/-- The `for sym2 in SYMBOLS` narrowing loop: drop `sym2` from
`mustprecede[sym1]` when it is not among the preceding symbols, and from
`mustfollow[sym1]` when it is not among the following symbols. -/
def pruneMust (mp mf : Dict (List String)) (preceding following : List String)
    (sym1 : String) : Dict (List String) × Dict (List String) :=
  SYMBOLS.foldl
    (fun (acc : Dict (List String) × Dict (List String)) sym2 =>
      (if sym2 ∈ preceding then acc.1 else tryRemove acc.1 sym1 sym2,
       if sym2 ∈ following then acc.2 else tryRemove acc.2 sym1 sym2))
    (mp, mf)

/-- One position of the training loop: the body of
`for idx, sym1 in enumerate(line_symbols)` in `AGLearner.train`. -/
def trainPos (line : List String) (st : AGLearner) (p : Nat × String) :
    Except String AGLearner :=
  let sym1 := p.2
  let counts1 := bumpCount st.counts sym1
  let preceding := pySet (line.take p.1)
  let following := pySet (line.drop (p.1 + 1))
  let other := setUnion preceding following
  let cooccurs1 := other.foldl (fun co sym2 => bumpCo co sym1 sym2) st.cooccurs
  match addAll st.before sym1 preceding, addAll st.after sym1 following with
  | .ok before1, .ok after1 =>
      let mpf := pruneMust st.mustprecede st.mustfollow preceding following sym1
      .ok { st with counts := counts1, cooccurs := cooccurs1, before := before1,
                    after := after1, mustprecede := mpf.1, mustfollow := mpf.2 }
  | .error e, _ => .error e
  | .ok _, .error e => .error e

/-- Processing one training line (one input sequence). -/
def trainLine (st : AGLearner) (line : List String) : Except String AGLearner :=
  (enumF 0 line).foldlM (trainPos line) st

/-- One iteration of the rule-learning double loop over `SYMBOLS × SYMBOLS`:
co-occurrence counts imply requires/excludes, and absence from the
before/after observation sets implies noprecede/nofollow. -/
def learnPair (st : AGLearner) (sym1 sym2 : String) : Except String AGLearner :=
  let cp := ddGet 0 st.counts sym1
  let rp := ddGet [] st.cooccurs sym1
  let np2 := ddGet 0 rp.1 sym2
  let cooccurs1 := dSet rp.2 sym1 np2.2
  let re :=
    if np2.1 = cp.1 then
      let gp := ddGet [] st.requires sym1
      (dSet gp.2 sym1 (setAdd gp.1 sym2), st.excludes)
    else if np2.1 = 0 then
      let gp := ddGet [] st.excludes sym1
      (st.requires, dSet gp.2 sym1 (setAdd gp.1 sym2))
    else (st.requires, st.excludes)
  match dGet? st.before sym1, dGet? st.after sym1 with
  | some bs, some afs =>
      let noprecede1 :=
        if sym2 ∈ bs then st.noprecede
        else
          let gp := ddGet [] st.noprecede sym1
          dSet gp.2 sym1 (setAdd gp.1 sym2)
      let nofollow1 :=
        if sym2 ∈ afs then st.nofollow
        else
          let gp := ddGet [] st.nofollow sym1
          dSet gp.2 sym1 (setAdd gp.1 sym2)
      .ok { st with counts := cp.2, cooccurs := cooccurs1, requires := re.1,
                    excludes := re.2, noprecede := noprecede1, nofollow := nofollow1 }
  | _, _ => .error ("KeyError: " ++ sym1)

/-- The rule-learning phase of `AGLearner.train`: the double loop over the
alphabet after the input pass. -/
def learnPhase (st : AGLearner) : Except String AGLearner :=
  SYMBOLS.foldlM
    (fun st1 sym1 =>
      SYMBOLS.foldlM (fun st2 sym2 => learnPair st2 sym1 sym2) st1)
    st

/-- `AGLearner.train` on an in-memory corpus: the per-line counting pass from a
fresh learner, then the rule-learning phase.  (File reading and the final
`NgramModel` construction are external and omitted.) -/
def trainCorpus (corpus : List (List String)) : Except String AGLearner :=
  (corpus.foldlM trainLine initLearner).bind learnPhase

/-- A per-rule-class verdict pair, as produced for one test sequence. -/
structure Verdict where
  cooccur_ok : Bool
  cooccur_reasons : List String
  linear_ok : Bool
  linear_reasons : List String
deriving DecidableEq

/-- The initial verdict state (`cooccur_ok = True`, no reasons, etc.). -/
def initVerdict : Verdict :=
  { cooccur_ok := true, cooccur_reasons := [], linear_ok := true, linear_reasons := [] }

/-- Record a co-occurrence violation: set `cooccur_ok = False`, add the reason. -/
def flagCo (v : Verdict) (r : String) : Verdict :=
  { v with cooccur_ok := false, cooccur_reasons := setAdd v.cooccur_reasons r }

/-- Record a linear-order violation: set `linear_ok = False`, add the reason. -/
def flagLin (v : Verdict) (r : String) : Verdict :=
  { v with linear_ok := false, linear_reasons := setAdd v.linear_reasons r }

/-- One position of the violation-decoding loop in `AGLearner.test`: checks
excluded-but-present, required-but-missing, forbidden preceding/following
symbols, and missing must-precede/must-follow symbols, threading the
defaultdict rule tables (whose reads may insert absent keys). -/
def classifyPos (line : List String) (acc : Verdict × AGLearner) (p : Nat × String) :
    Except String (Verdict × AGLearner) :=
  let sym1 := p.2
  let st := acc.2
  let preceding := pySet (line.take p.1)
  let following := pySet (line.drop (p.1 + 1))
  let other := setUnion preceding following
  let ep := ddGet [] st.excludes sym1
  let v1 := (setInter ep.1 other).foldl
      (fun v sym2 => flagCo v (sym1 ++ " excludes " ++ sym2)) acc.1
  let rp := ddGet [] st.requires sym1
  let v2 := (setInter rp.1 (setDiff SYMBOLS other)).foldl
      (fun v sym2 => flagCo v (sym1 ++ " requires " ++ sym2)) v1
  let npp := preceding.foldl
      (fun (a : Verdict × Dict (List String)) prec_sym =>
        let gp := ddGet [] a.2 sym1
        (if prec_sym ∈ gp.1 then flagLin a.1 (prec_sym ++ " cannot precede " ++ sym1)
         else a.1, gp.2))
      (v2, st.noprecede)
  let nfp := following.foldl
      (fun (a : Verdict × Dict (List String)) fol_sym =>
        let gp := ddGet [] a.2 sym1
        (if fol_sym ∈ gp.1 then flagLin a.1 (fol_sym ++ " cannot follow " ++ sym1)
         else a.1, gp.2))
      (npp.1, st.nofollow)
  match dGet? st.mustprecede sym1, dGet? st.mustfollow sym1 with
  | some mps, some mfs =>
      let v5 := (setDiff mps preceding).foldl
          (fun v prec_sym => flagLin v (prec_sym ++ " must precede " ++ sym1)) nfp.1
      let v6 := (setDiff mfs following).foldl
          (fun v fol_sym => flagLin v (fol_sym ++ " must follow " ++ sym1)) v5
      .ok (v6, { st with requires := rp.2, excludes := ep.2,
                         noprecede := npp.2, nofollow := nfp.2 })
  | _, _ => .error ("KeyError: " ++ sym1)

/-- The per-sequence classification portion of `AGLearner.test`: decode
co-occurrence and linear-order violations for one held-out sequence
(file I/O, gold labels and n-gram scoring are reporting glue, omitted). -/
def classify (st : AGLearner) (line : List String) :
    Except String (Verdict × AGLearner) :=
  (enumF 0 line).foldlM (classifyPos line) (initVerdict, st)

/-! ## Observations of the learner state -/

/-- Occurrence count of a symbol (0 when never counted). -/
def countsD (st : AGLearner) (k : String) : Nat := lookupD 0 st.counts k

/-- Co-occurrence count of an ordered pair (0 when never counted). -/
def coD (st : AGLearner) (a b : String) : Nat :=
  lookupD 0 (lookupD [] st.cooccurs a) b

/-- The Requires set of a symbol. -/
def reqD (st : AGLearner) (k : String) : List String := lookupD [] st.requires k

/-- The Excludes set of a symbol. -/
def exD (st : AGLearner) (k : String) : List String := lookupD [] st.excludes k

/-- The No-precede set of a symbol. -/
def npD (st : AGLearner) (k : String) : List String := lookupD [] st.noprecede k

/-- The No-follow set of a symbol. -/
def nfD (st : AGLearner) (k : String) : List String := lookupD [] st.nofollow k

/-- The Must-precede set of a symbol. -/
def mustpD (st : AGLearner) (k : String) : List String :=
  lookupD [] st.mustprecede k

/-- The Must-follow set of a symbol. -/
def mustfD (st : AGLearner) (k : String) : List String :=
  lookupD [] st.mustfollow k

/-- The set of symbols ever observed before a symbol. -/
def beforeD (st : AGLearner) (k : String) : List String := lookupD [] st.before k

/-- The set of symbols ever observed after a symbol. -/
def afterD (st : AGLearner) (k : String) : List String := lookupD [] st.after k

/-- `true` exactly on `Except.error`. -/
def isErr {α : Type} : Except String α → Bool
  | .error _ => true
  | .ok _ => false

/-- Extract the success value of an `Except`, with a fallback. -/
def getOk {α : Type} (dflt : α) : Except String α → α
  | .ok a => a
  | .error _ => dflt

/-! ## Specification-side counting (for the refinement claim C5) -/

/-- Spec-side occurrence count: a symbol occurring `k` times in one training
sequence adds `k` to its occurrence count (per position, not per sequence). -/
def occSpec (corpus : List (List String)) (A : String) : Nat :=
  (corpus.map (fun line => line.count A)).sum

/-- Spec-side per-line co-occurrence count: the number of positions of the
line holding `A` whose sequence contains `B` at some other position. -/
def coSpecLine (line : List String) (A B : String) : Nat :=
  ((enumF 0 line).filter
    (fun p => p.2 = A ∧ B ∈ line.take p.1 ++ line.drop (p.1 + 1))).length

/-- Spec-side co-occurrence count across the whole corpus. -/
def coSpec (corpus : List (List String)) (A B : String) : Nat :=
  (corpus.map (fun line => coSpecLine line A B)).sum

/-! ## Derived observations and invariant predicates -/

/-- The pair-level observation of the nested co-occurrence table. -/
def coLook (co : Dict (Dict Nat)) (x y : String) : Nat :=
  lookupD 0 (lookupD [] co x) y

/-- Shorthand for the deduplicated preceding-symbol set at a position. -/
def preAt (line : List String) (i : Nat) : List String := pySet (line.take i)

/-- Shorthand for the deduplicated following-symbol set at a position. -/
def folAt (line : List String) (i : Nat) : List String :=
  pySet (line.drop (i + 1))

/-- Shorthand for the other-symbol set at a position. -/
def otherAt (line : List String) (i : Nat) : List String :=
  setUnion (preAt line i) (folAt line i)

/-- The four plain dicts are keyed by exactly the alphabet. -/
def domsOK (st : AGLearner) : Prop :=
  (∀ j, (dGet? st.before j).isSome ↔ j ∈ SYMBOLS) ∧
  (∀ j, (dGet? st.after j).isSome ↔ j ∈ SYMBOLS) ∧
  (∀ j, (dGet? st.mustprecede j).isSome ↔ j ∈ SYMBOLS) ∧
  (∀ j, (dGet? st.mustfollow j).isSome ↔ j ∈ SYMBOLS)

/-- The learned rule tables are untouched (empty) during the input pass. -/
def rulesNil (st : AGLearner) : Prop :=
  st.requires = [] ∧ st.excludes = [] ∧ st.noprecede = [] ∧ st.nofollow = []

/-- Co-occurrence counts are bounded by occurrence counts. -/
def coBounded (st : AGLearner) : Prop :=
  ∀ x y, coD st x y ≤ countsD st x

/-- The before/after observation sets only ever hold alphabet symbols. -/
def obsSub (st : AGLearner) : Prop :=
  (∀ j y, y ∈ beforeD st j → y ∈ SYMBOLS) ∧
  (∀ j y, y ∈ afterD st j → y ∈ SYMBOLS)

/-- Both must-tables only hold alphabet symbols. -/
def mustSub (st : AGLearner) : Prop :=
  (∀ j y, y ∈ mustpD st j → y ∈ SYMBOLS) ∧
  (∀ j y, y ∈ mustfD st j → y ∈ SYMBOLS)

/-- The pure verdict transformation performed by one classification position,
expressed over the table values read at that position. -/
def classifyPosV (line : List String) (exs reqs nps nfs mps mfs : List String)
    (v : Verdict) (p : Nat × String) : Verdict :=
  let sym1 := p.2
  let preceding := pySet (line.take p.1)
  let following := pySet (line.drop (p.1 + 1))
  let other := setUnion preceding following
  let v1 := (setInter exs other).foldl
      (fun v sym2 => flagCo v (sym1 ++ " excludes " ++ sym2)) v
  let v2 := (setInter reqs (setDiff SYMBOLS other)).foldl
      (fun v sym2 => flagCo v (sym1 ++ " requires " ++ sym2)) v1
  let v3 := preceding.foldl
      (fun v prec_sym => if prec_sym ∈ nps
        then flagLin v (prec_sym ++ " cannot precede " ++ sym1) else v) v2
  let v4 := following.foldl
      (fun v fol_sym => if fol_sym ∈ nfs
        then flagLin v (fol_sym ++ " cannot follow " ++ sym1) else v) v3
  let v5 := (setDiff mps preceding).foldl
      (fun v prec_sym => flagLin v (prec_sym ++ " must precede " ++ sym1)) v4
  (setDiff mfs following).foldl
      (fun v fol_sym => flagLin v (fol_sym ++ " must follow " ++ sym1)) v5

/-- Equality of every table observation the classifier can read. -/
def tablesEqv (s1 s2 : AGLearner) : Prop :=
  (∀ k, reqD s1 k = reqD s2 k) ∧ (∀ k, exD s1 k = exD s2 k) ∧
  (∀ k, npD s1 k = npD s2 k) ∧ (∀ k, nfD s1 k = nfD s2 k) ∧
  s1.mustprecede = s2.mustprecede ∧ s1.mustfollow = s2.mustfollow

/-- Each verdict flag is false exactly when its reason set is nonempty. -/
def okIffNoReasons (v : Verdict) : Prop :=
  (v.cooccur_ok = true ↔ v.cooccur_reasons = []) ∧
  (v.linear_ok = true ↔ v.linear_reasons = [])

/-- Verdict monotonicity: flags once false stay false, reasons only grow. -/
def VMono (v w : Verdict) : Prop :=
  (v.cooccur_ok = false → w.cooccur_ok = false) ∧
  (∀ r ∈ v.cooccur_reasons, r ∈ w.cooccur_reasons) ∧
  (v.linear_ok = false → w.linear_ok = false) ∧
  (∀ r ∈ v.linear_reasons, r ∈ w.linear_reasons)

/-! ## Dictionary lemmas -/

theorem dGet?_dSet {α : Type} (d : Dict α) (k j : String) (v : α) :
    dGet? (dSet d k v) j = if k = j then some v else dGet? d j := by
  induction d with
  | nil => simp [dSet, dGet?]
  | cons hd tl ih =>
      obtain ⟨k', v'⟩ := hd
      by_cases hk : k' = k
      · subst hk
        simp only [dSet, if_pos rfl, dGet?]
        by_cases hj : k' = j <;> simp [hj]
      · simp only [dSet, if_neg hk, dGet?]
        by_cases hj : k' = j
        · subst hj
          have : ¬ k = k' := fun h => hk h.symm
          simp [this]
        · simp [hj, ih]

theorem lookupD_dSet {α : Type} (dflt : α) (d : Dict α) (k j : String) (v : α) :
    lookupD dflt (dSet d k v) j = if k = j then v else lookupD dflt d j := by
  simp only [lookupD, dGet?_dSet]
  by_cases h : k = j <;> simp [h]

theorem dGet?_append_single {α : Type} (d : Dict α) (k j : String) (v : α) :
    dGet? (d ++ [(k, v)]) j =
      match dGet? d j with
      | some w => some w
      | none => if k = j then some v else none := by
  induction d with
  | nil => simp [dGet?]
  | cons hd tl ih =>
      obtain ⟨k', v'⟩ := hd
      by_cases hj : k' = j <;> simp [dGet?, hj, ih]

theorem ddGet_fst {α : Type} (dflt : α) (d : Dict α) (k : String) :
    (ddGet dflt d k).1 = lookupD dflt d k := by
  unfold ddGet lookupD
  cases h : dGet? d k <;> simp [h]

theorem dGet?_ddGet_snd_ne {α : Type} (dflt : α) (d : Dict α) {k j : String}
    (hj : k ≠ j) : dGet? (ddGet dflt d k).2 j = dGet? d j := by
  unfold ddGet
  cases h : dGet? d k with
  | some v => rfl
  | none =>
      simp only [dGet?_append_single]
      cases hdj : dGet? d j with
      | some w => rfl
      | none => simp [hj]

theorem dGet?_ddGet_snd_self {α : Type} (dflt : α) (d : Dict α) (k : String) :
    dGet? (ddGet dflt d k).2 k = some ((dGet? d k).getD dflt) := by
  unfold ddGet
  cases h : dGet? d k with
  | some v => simp [h]
  | none => simp [dGet?_append_single, h]

theorem lookupD_ddGet_snd {α : Type} (dflt : α) (d : Dict α) (k j : String) :
    lookupD dflt (ddGet dflt d k).2 j = lookupD dflt d j := by
  by_cases hj : k = j
  · subst hj
    simp [lookupD, dGet?_ddGet_snd_self]
  · simp [lookupD, dGet?_ddGet_snd_ne dflt d hj]

theorem isSome_dGet?_ddGet_snd {α : Type} (dflt : α) (d : Dict α) (k j : String)
    (h : (dGet? d j).isSome) : (dGet? (ddGet dflt d k).2 j).isSome := by
  by_cases hj : k = j
  · subst hj
    simp [dGet?_ddGet_snd_self]
  · rw [dGet?_ddGet_snd_ne dflt d hj]
    exact h

/-! ## Set lemmas -/

theorem mem_setAdd {s : List String} {x y : String} :
    y ∈ setAdd s x ↔ y ∈ s ∨ y = x := by
  unfold setAdd
  split
  · rename_i h
    constructor
    · exact Or.inl
    · rintro (hy | rfl)
      · exact hy
      · exact h
  · simp

theorem mem_foldl_setAdd {y : String} :
    ∀ (l acc : List String), y ∈ l.foldl setAdd acc ↔ y ∈ acc ∨ y ∈ l := by
  intro l
  induction l with
  | nil => simp
  | cons x xs ih =>
      intro acc
      simp only [List.foldl_cons, ih, mem_setAdd, List.mem_cons]
      tauto

theorem mem_pySet {y : String} {l : List String} : y ∈ pySet l ↔ y ∈ l := by
  simp [pySet, mem_foldl_setAdd]

theorem mem_setUnion {y : String} {s t : List String} :
    y ∈ setUnion s t ↔ y ∈ s ∨ y ∈ t := by
  simp [setUnion, mem_foldl_setAdd]

theorem mem_setInter {y : String} {s t : List String} :
    y ∈ setInter s t ↔ y ∈ s ∧ y ∈ t := by
  simp [setInter]

theorem mem_setDiff {y : String} {s t : List String} :
    y ∈ setDiff s t ↔ y ∈ s ∧ y ∉ t := by
  simp [setDiff]

theorem mem_setRemove {y x : String} {s : List String} :
    y ∈ setRemove s x ↔ y ∈ s ∧ y ≠ x := by
  simp [setRemove]

theorem nodup_setAdd {s : List String} {x : String} (h : s.Nodup) :
    (setAdd s x).Nodup := by
  unfold setAdd
  split
  · exact h
  · rename_i hx
    simp [List.nodup_append, h, hx]

theorem nodup_foldl_setAdd :
    ∀ (l acc : List String), acc.Nodup → (l.foldl setAdd acc).Nodup := by
  intro l
  induction l with
  | nil => intro acc h; exact h
  | cons x xs ih =>
      intro acc h
      exact ih _ (nodup_setAdd h)

theorem nodup_pySet (l : List String) : (pySet l).Nodup :=
  nodup_foldl_setAdd l [] List.nodup_nil

theorem nodup_setUnion {s : List String} (t : List String) (h : s.Nodup) :
    (setUnion s t).Nodup :=
  nodup_foldl_setAdd t s h

theorem pySet_nil : pySet [] = [] := rfl

theorem pySet_ne_nil {l : List String} (h : l ≠ []) : pySet l ≠ [] := by
  intro hc
  obtain ⟨x, xs, rfl⟩ := List.exists_cons_of_ne_nil h
  have : x ∈ pySet (x :: xs) := mem_pySet.2 (List.mem_cons_self x xs)
  rw [hc] at this
  exact List.not_mem_nil x this

/-! ## `enumF` lemmas -/

theorem mem_enumF {α : Type} {i : Nat} {b : α} :
    ∀ (l : List α) (n : Nat),
      (i, b) ∈ enumF n l ↔ ∃ j, l.get? j = some b ∧ i = n + j := by
  intro l
  induction l with
  | nil => simp [enumF]
  | cons x xs ih =>
      intro n
      simp only [enumF, List.mem_cons, ih, Prod.mk.injEq]
      constructor
      · rintro (⟨rfl, rfl⟩ | ⟨j, hget, rfl⟩)
        · exact ⟨0, rfl, by omega⟩
        · exact ⟨j + 1, by simpa using hget, by omega⟩
      · rintro ⟨j, hget, rfl⟩
        cases j with
        | zero =>
            left
            simp only [List.get?] at hget
            cases hget
            exact ⟨by omega, rfl⟩
        | succ j' =>
            right
            exact ⟨j', by simpa using hget, by omega⟩

theorem mem_of_mem_enumF {α : Type} {i n : Nat} {b : α} {l : List α}
    (h : (i, b) ∈ enumF n l) : b ∈ l := by
  obtain ⟨j, hget, _⟩ := (mem_enumF l n).1 h
  exact List.get?_mem hget

theorem exists_enumF_of_mem {α : Type} {b : α} :
    ∀ {l : List α}, b ∈ l → ∀ n, ∃ i, (i, b) ∈ enumF n l := by
  intro l
  induction l with
  | nil => intro h; exact absurd h (List.not_mem_nil b)
  | cons x xs ih =>
      intro h n
      rcases List.mem_cons.1 h with rfl | h'
      · exact ⟨n, List.mem_cons_self _ _⟩
      · obtain ⟨i, hi⟩ := ih h' (n + 1)
        exact ⟨i, List.mem_cons_of_mem _ hi⟩

/-! ## `Except` / `foldlM` lemmas -/

theorem ok_bind {α β : Type} (a : α) (f : α → Except String β) :
    (Except.ok a : Except String α) >>= f = f a := rfl

theorem error_bind {α β : Type} (e : String) (f : α → Except String β) :
    (Except.error e : Except String α) >>= f = Except.error e := rfl

theorem foldlM_induct {σ α : Type} {f : σ → α → Except String σ} {P : σ → Prop} :
    ∀ (l : List α) (s s' : σ),
      (∀ b a b', a ∈ l → P b → f b a = .ok b' → P b') →
      P s → l.foldlM f s = .ok s' → P s' := by
  intro l
  induction l with
  | nil =>
      intro s s' _ hP h
      simp only [List.foldlM_nil] at h
      cases h
      exact hP
  | cons x xs ih =>
      intro s s' hstep hP h
      rw [List.foldlM_cons] at h
      cases hfx : f s x with
      | error e => rw [hfx] at h; exact absurd h (by simp [error_bind])
      | ok s1 =>
          rw [hfx, ok_bind] at h
          exact ih s1 s' (fun b a b' ha => hstep b a b' (List.mem_cons_of_mem _ ha))
            (hstep s x s1 (List.mem_cons_self _ _) hP hfx) h

theorem foldlM_mem_step {σ α : Type} {f : σ → α → Except String σ} {P : σ → Prop} :
    ∀ (l : List α) (s s' : σ),
      (∀ b a b', a ∈ l → P b → f b a = .ok b' → P b') →
      P s → l.foldlM f s = .ok s' →
      ∀ a ∈ l, ∃ s1 s2, P s1 ∧ f s1 a = .ok s2 := by
  intro l
  induction l with
  | nil => intro s s' _ _ _ a ha; exact absurd ha (List.not_mem_nil a)
  | cons x xs ih =>
      intro s s' hstep hP h a ha
      rw [List.foldlM_cons] at h
      cases hfx : f s x with
      | error e => rw [hfx] at h; exact absurd h (by simp [error_bind])
      | ok s1 =>
          rw [hfx, ok_bind] at h
          rcases List.mem_cons.1 ha with rfl | ha'
          · exact ⟨s, s1, hP, hfx⟩
          · exact ih s1 s' (fun b a b' hb => hstep b a b' (List.mem_cons_of_mem _ hb))
              (hstep s x s1 (List.mem_cons_self _ _) hP hfx) h a ha'

theorem foldlM_error_of_bad {σ α : Type} {f : σ → α → Except String σ} {P : σ → Prop} :
    ∀ (l : List α) (s : σ),
      (∀ b a b', a ∈ l → P b → f b a = .ok b' → P b') →
      P s →
      (∃ a ∈ l, ∀ s1, P s1 → ∃ e, f s1 a = .error e) →
      ∃ e, l.foldlM f s = .error e := by
  intro l
  induction l with
  | nil => rintro s _ _ ⟨a, ha, _⟩; exact absurd ha (List.not_mem_nil a)
  | cons x xs ih =>
      rintro s hstep hP ⟨a, ha, hbad⟩
      rw [List.foldlM_cons]
      cases hfx : f s x with
      | error e => exact ⟨e, by rw [error_bind]⟩
      | ok s1 =>
          rw [ok_bind]
          rcases List.mem_cons.1 ha with rfl | ha'
          · obtain ⟨e, he⟩ := hbad s hP
            rw [hfx] at he
            cases he
          · exact ih s1 (fun b a b' hb => hstep b a b' (List.mem_cons_of_mem _ hb))
              (hstep s x s1 (List.mem_cons_self _ _) hP hfx) ⟨a, ha', hbad⟩

theorem foldl_induct {α γ : Type} {f : α → γ → α} {Q : α → Prop} :
    ∀ (l : List γ) (a : α),
      (∀ b x, x ∈ l → Q b → Q (f b x)) → Q a → Q (l.foldl f a) := by
  intro l
  induction l with
  | nil => intro a _ h; exact h
  | cons x xs ih =>
      intro a hstep h
      exact ih (f a x) (fun b y hy => hstep b y (List.mem_cons_of_mem _ hy))
        (hstep a x (List.mem_cons_self _ _) h)

theorem foldl_pair_split {α β γ : Type} (g : α → γ → α) (h : β → γ → β) :
    ∀ (l : List γ) (a : α) (b : β),
      l.foldl (fun acc x => (g acc.1 x, h acc.2 x)) (a, b) =
        (l.foldl g a, l.foldl h b) := by
  intro l
  induction l with
  | nil => intro a b; rfl
  | cons x xs ih => intro a b; simpa using ih (g a x) (h b x)

/-! ## Effect lemmas for the training step -/

theorem lookupD_bumpCount (c : Dict Nat) (k j : String) :
    lookupD 0 (bumpCount c k) j = lookupD 0 c j + if k = j then 1 else 0 := by
  unfold bumpCount
  rw [lookupD_dSet]
  by_cases h : k = j
  · subst h
    simp [ddGet_fst]
  · simp [h, lookupD_ddGet_snd]

theorem coLook_bumpCo (co : Dict (Dict Nat)) (a b x y : String) :
    coLook (bumpCo co a b) x y =
      coLook co x y + if a = x ∧ b = y then 1 else 0 := by
  unfold bumpCo coLook
  rw [lookupD_dSet]
  by_cases hax : a = x
  · subst hax
    rw [if_pos rfl, lookupD_dSet]
    by_cases hby : b = y
    · subst hby
      simp [ddGet_fst, lookupD_ddGet_snd]
    · simp [hby, lookupD_ddGet_snd, ddGet_fst]
  · simp [hax, lookupD_ddGet_snd]

theorem coLook_foldl_bumpCo (s x y : String) :
    ∀ (l : List String) (co : Dict (Dict Nat)), l.Nodup →
      coLook (l.foldl (fun co sym2 => bumpCo co s sym2) co) x y =
        coLook co x y + if s = x ∧ y ∈ l then 1 else 0 := by
  intro l
  induction l with
  | nil => intro co _; simp
  | cons z zs ih =>
      intro co hnd
      obtain ⟨hz, hnd'⟩ := List.nodup_cons.1 hnd
      rw [List.foldl_cons, ih _ hnd', coLook_bumpCo]
      by_cases hsx : s = x
      · subst hsx
        by_cases hzy : z = y
        · subst hzy
          simp [List.mem_cons, hz]
        · have hyz : ¬ y = z := fun hc => hzy hc.symm
          by_cases hyzs : y ∈ zs <;> simp [hzy, hyz, hyzs, List.mem_cons]
      · simp [hsx]

theorem addAll_ok_cases {d d' : Dict (List String)} {s1 : String}
    {syms : List String} (h : addAll d s1 syms = .ok d') :
    (syms = [] ∧ d' = d) ∨
      (syms ≠ [] ∧ ∃ s, dGet? d s1 = some s ∧
        d' = dSet d s1 (syms.foldl setAdd s)) := by
  cases syms with
  | nil =>
      left
      refine ⟨rfl, ?_⟩
      simp only [addAll] at h
      cases h
      rfl
  | cons z zs =>
      right
      refine ⟨by simp, ?_⟩
      simp only [addAll] at h
      cases hg : dGet? d s1 with
      | none => rw [hg] at h; cases h
      | some s =>
          rw [hg] at h
          cases h
          exact ⟨s, rfl, rfl⟩

theorem mem_addAll {d d' : Dict (List String)} {s1 : String} {syms : List String}
    (h : addAll d s1 syms = .ok d') (j y : String) :
    y ∈ lookupD [] d' j ↔ y ∈ lookupD [] d j ∨ (j = s1 ∧ y ∈ syms) := by
  rcases addAll_ok_cases h with ⟨rfl, rfl⟩ | ⟨_, s, hg, rfl⟩
  · simp
  · rw [lookupD_dSet]
    by_cases hj : s1 = j
    · subst hj
      simp [mem_foldl_setAdd, lookupD, hg]
    · have hj' : ¬ j = s1 := fun hc => hj hc.symm
      simp [hj, hj']

theorem isSome_addAll {d d' : Dict (List String)} {s1 : String} {syms : List String}
    (h : addAll d s1 syms = .ok d') (j : String) :
    (dGet? d' j).isSome = (dGet? d j).isSome := by
  rcases addAll_ok_cases h with ⟨_, rfl⟩ | ⟨_, s, hg, rfl⟩
  · rfl
  · rw [dGet?_dSet]
    by_cases hj : s1 = j
    · subst hj
      simp [hg]
    · simp [hj]

theorem addAll_ok_of_isSome {d : Dict (List String)} {s1 : String}
    (syms : List String) (h : (dGet? d s1).isSome) :
    ∃ d', addAll d s1 syms = .ok d' := by
  cases syms with
  | nil => exact ⟨d, rfl⟩
  | cons z zs =>
      cases hg : dGet? d s1 with
      | none => rw [hg] at h; cases h
      | some s =>
          exact ⟨dSet d s1 (List.foldl setAdd s (z :: zs)), by simp [addAll, hg]⟩

theorem addAll_isSome_of_ok {d d' : Dict (List String)} {s1 : String}
    {syms : List String} (h : addAll d s1 syms = .ok d') (hne : syms ≠ []) :
    (dGet? d s1).isSome := by
  rcases addAll_ok_cases h with ⟨hnil, _⟩ | ⟨_, s, hg, _⟩
  · exact absurd hnil hne
  · simp [hg]

theorem mem_tryRemove (d : Dict (List String)) (k x j y : String) :
    y ∈ lookupD [] (tryRemove d k x) j ↔
      y ∈ lookupD [] d j ∧ ¬(j = k ∧ y = x) := by
  unfold tryRemove
  cases hg : dGet? d k with
  | none =>
      by_cases hj : j = k
      · subst hj
        simp [lookupD, hg]
      · simp [hj]
  | some s =>
      rw [lookupD_dSet]
      by_cases hj : k = j
      · subst hj
        simp [mem_setRemove, lookupD, hg]
      · have hj' : ¬ j = k := fun hc => hj hc.symm
        simp [hj, hj']

theorem isSome_tryRemove (d : Dict (List String)) (k x j : String) :
    (dGet? (tryRemove d k x) j).isSome = (dGet? d j).isSome := by
  unfold tryRemove
  cases hg : dGet? d k with
  | none => rfl
  | some s =>
      rw [dGet?_dSet]
      by_cases hj : k = j
      · subst hj
        simp [hg]
      · simp [hj]

theorem mem_foldl_prune (pre : List String) (k : String) :
    ∀ (l : List String) (d : Dict (List String)) (j y : String),
      y ∈ lookupD []
          (l.foldl (fun m x => if x ∈ pre then m else tryRemove m k x) d) j ↔
        y ∈ lookupD [] d j ∧ ¬(j = k ∧ y ∈ l ∧ y ∉ pre) := by
  intro l
  induction l with
  | nil => intro d j y; simp
  | cons z zs ih =>
      intro d j y
      rw [List.foldl_cons, ih]
      by_cases hz : z ∈ pre
      · rw [if_pos hz]
        constructor
        · rintro ⟨hm, hnot⟩
          refine ⟨hm, ?_⟩
          rintro ⟨rfl, hmem, hpre⟩
          rcases List.mem_cons.1 hmem with rfl | hzs
          · exact hpre hz
          · exact hnot ⟨rfl, hzs, hpre⟩
        · rintro ⟨hm, hnot⟩
          exact ⟨hm, fun ⟨hj, hzs, hpre⟩ =>
            hnot ⟨hj, List.mem_cons_of_mem _ hzs, hpre⟩⟩
      · rw [if_neg hz, mem_tryRemove]
        constructor
        · rintro ⟨⟨hm, hnz⟩, hnot⟩
          refine ⟨hm, ?_⟩
          rintro ⟨rfl, hmem, hpre⟩
          rcases List.mem_cons.1 hmem with rfl | hzs
          · exact hnz ⟨rfl, rfl⟩
          · exact hnot ⟨rfl, hzs, hpre⟩
        · rintro ⟨hm, hnot⟩
          refine ⟨⟨hm, ?_⟩, ?_⟩
          · rintro ⟨rfl, rfl⟩
            exact hnot ⟨rfl, List.mem_cons_self _ _, hz⟩
          · rintro ⟨rfl, hzs, hpre⟩
            exact hnot ⟨rfl, List.mem_cons_of_mem _ hzs, hpre⟩

theorem isSome_foldl_prune (pre : List String) (k : String) :
    ∀ (l : List String) (d : Dict (List String)) (j : String),
      (dGet? (l.foldl (fun m x => if x ∈ pre then m else tryRemove m k x) d) j).isSome
        = (dGet? d j).isSome := by
  intro l
  induction l with
  | nil => intro d j; rfl
  | cons z zs ih =>
      intro d j
      rw [List.foldl_cons, ih]
      by_cases hz : z ∈ pre
      · rw [if_pos hz]
      · rw [if_neg hz, isSome_tryRemove]

theorem pruneMust_eq (mp mf : Dict (List String)) (pre fol : List String)
    (s1 : String) :
    pruneMust mp mf pre fol s1 =
      (SYMBOLS.foldl (fun m x => if x ∈ pre then m else tryRemove m s1 x) mp,
       SYMBOLS.foldl (fun m x => if x ∈ fol then m else tryRemove m s1 x) mf) := by
  unfold pruneMust
  exact foldl_pair_split (fun m x => if x ∈ pre then m else tryRemove m s1 x)
    (fun m x => if x ∈ fol then m else tryRemove m s1 x) SYMBOLS mp mf

theorem trainPos_ok_cases {line : List String} {st st' : AGLearner}
    {p : Nat × String} (h : trainPos line st p = .ok st') :
    ∃ b1 a1,
      addAll st.before p.2 (preAt line p.1) = .ok b1 ∧
      addAll st.after p.2 (folAt line p.1) = .ok a1 ∧
      st' = { st with
        counts := bumpCount st.counts p.2,
        cooccurs := (otherAt line p.1).foldl
          (fun co sym2 => bumpCo co p.2 sym2) st.cooccurs,
        before := b1, after := a1,
        mustprecede := (pruneMust st.mustprecede st.mustfollow (preAt line p.1)
          (folAt line p.1) p.2).1,
        mustfollow := (pruneMust st.mustprecede st.mustfollow (preAt line p.1)
          (folAt line p.1) p.2).2 } := by
  simp only [trainPos] at h
  cases hb : addAll st.before p.2 (pySet (line.take p.1)) with
  | error e =>
      rw [hb] at h
      exact absurd h (by simp)
  | ok b1 =>
      rw [hb] at h
      cases ha : addAll st.after p.2 (pySet (line.drop (p.1 + 1))) with
      | error e =>
          rw [ha] at h
          exact absurd h (by simp)
      | ok a1 =>
          rw [ha] at h
          refine ⟨b1, a1, hb, ha, ?_⟩
          cases h
          rfl

theorem trainPos_counts {line : List String} {st st' : AGLearner} {p : Nat × String}
    (h : trainPos line st p = .ok st') (j : String) :
    countsD st' j = countsD st j + if p.2 = j then 1 else 0 := by
  obtain ⟨b1, a1, _, _, rfl⟩ := trainPos_ok_cases h
  exact lookupD_bumpCount st.counts p.2 j

theorem trainPos_coD {line : List String} {st st' : AGLearner} {p : Nat × String}
    (h : trainPos line st p = .ok st') (x y : String) :
    coD st' x y = coD st x y +
      if p.2 = x ∧ y ∈ otherAt line p.1 then 1 else 0 := by
  obtain ⟨b1, a1, _, _, rfl⟩ := trainPos_ok_cases h
  exact coLook_foldl_bumpCo p.2 x y (otherAt line p.1) st.cooccurs
    (nodup_setUnion _ (nodup_pySet _))

theorem trainPos_rules {line : List String} {st st' : AGLearner} {p : Nat × String}
    (h : trainPos line st p = .ok st') :
    st'.requires = st.requires ∧ st'.excludes = st.excludes ∧
      st'.noprecede = st.noprecede ∧ st'.nofollow = st.nofollow := by
  obtain ⟨b1, a1, _, _, rfl⟩ := trainPos_ok_cases h
  exact ⟨rfl, rfl, rfl, rfl⟩

theorem trainPos_before_mem {line : List String} {st st' : AGLearner}
    {p : Nat × String} (h : trainPos line st p = .ok st') (j y : String) :
    y ∈ beforeD st' j ↔ y ∈ beforeD st j ∨ (j = p.2 ∧ y ∈ preAt line p.1) := by
  obtain ⟨b1, a1, hb, _, rfl⟩ := trainPos_ok_cases h
  exact mem_addAll hb j y

theorem trainPos_after_mem {line : List String} {st st' : AGLearner}
    {p : Nat × String} (h : trainPos line st p = .ok st') (j y : String) :
    y ∈ afterD st' j ↔ y ∈ afterD st j ∨ (j = p.2 ∧ y ∈ folAt line p.1) := by
  obtain ⟨b1, a1, _, ha, rfl⟩ := trainPos_ok_cases h
  exact mem_addAll ha j y

theorem trainPos_mustp_mem {line : List String} {st st' : AGLearner}
    {p : Nat × String} (h : trainPos line st p = .ok st') (j y : String) :
    y ∈ mustpD st' j ↔
      y ∈ mustpD st j ∧ ¬(j = p.2 ∧ y ∈ SYMBOLS ∧ y ∉ preAt line p.1) := by
  obtain ⟨b1, a1, _, _, rfl⟩ := trainPos_ok_cases h
  show y ∈ lookupD [] (pruneMust _ _ _ _ _).1 j ↔ _
  rw [pruneMust_eq]
  exact mem_foldl_prune (preAt line p.1) p.2 SYMBOLS st.mustprecede j y

theorem trainPos_mustf_mem {line : List String} {st st' : AGLearner}
    {p : Nat × String} (h : trainPos line st p = .ok st') (j y : String) :
    y ∈ mustfD st' j ↔
      y ∈ mustfD st j ∧ ¬(j = p.2 ∧ y ∈ SYMBOLS ∧ y ∉ folAt line p.1) := by
  obtain ⟨b1, a1, _, _, rfl⟩ := trainPos_ok_cases h
  show y ∈ lookupD [] (pruneMust _ _ _ _ _).2 j ↔ _
  rw [pruneMust_eq]
  exact mem_foldl_prune (folAt line p.1) p.2 SYMBOLS st.mustfollow j y

theorem trainPos_isSome {line : List String} {st st' : AGLearner} {p : Nat × String}
    (h : trainPos line st p = .ok st') (j : String) :
    (dGet? st'.before j).isSome = (dGet? st.before j).isSome ∧
    (dGet? st'.after j).isSome = (dGet? st.after j).isSome ∧
    (dGet? st'.mustprecede j).isSome = (dGet? st.mustprecede j).isSome ∧
    (dGet? st'.mustfollow j).isSome = (dGet? st.mustfollow j).isSome := by
  obtain ⟨b1, a1, hb, ha, rfl⟩ := trainPos_ok_cases h
  refine ⟨isSome_addAll hb j, isSome_addAll ha j, ?_, ?_⟩
  · show (dGet? (pruneMust _ _ _ _ _).1 j).isSome = _
    rw [pruneMust_eq]
    exact isSome_foldl_prune (preAt line p.1) p.2 SYMBOLS st.mustprecede j
  · show (dGet? (pruneMust _ _ _ _ _).2 j).isSome = _
    rw [pruneMust_eq]
    exact isSome_foldl_prune (folAt line p.1) p.2 SYMBOLS st.mustfollow j

theorem trainPos_before_isSome_of_ok {line : List String} {st st' : AGLearner}
    {p : Nat × String} (h : trainPos line st p = .ok st')
    (hne : preAt line p.1 ≠ []) : (dGet? st.before p.2).isSome := by
  obtain ⟨b1, a1, hb, _, _⟩ := trainPos_ok_cases h
  exact addAll_isSome_of_ok hb hne

theorem trainPos_after_isSome_of_ok {line : List String} {st st' : AGLearner}
    {p : Nat × String} (h : trainPos line st p = .ok st')
    (hne : folAt line p.1 ≠ []) : (dGet? st.after p.2).isSome := by
  obtain ⟨b1, a1, _, ha, _⟩ := trainPos_ok_cases h
  exact addAll_isSome_of_ok ha hne

/-! ## Effect lemmas for the rule-learning step -/

theorem learnPair_ok_of_isSome {st : AGLearner} {a : String} (b : String)
    (hb : (dGet? st.before a).isSome) (ha : (dGet? st.after a).isSome) :
    ∃ st', learnPair st a b = .ok st' := by
  simp only [learnPair]
  cases hbs : dGet? st.before a with
  | none => rw [hbs] at hb; cases hb
  | some bs =>
      cases has : dGet? st.after a with
      | none => rw [has] at ha; cases ha
      | some afs => exact ⟨_, rfl⟩

theorem learnPair_effects {st st' : AGLearner} {a b : String}
    (h : learnPair st a b = .ok st') :
    st'.before = st.before ∧ st'.after = st.after ∧
    st'.mustprecede = st.mustprecede ∧ st'.mustfollow = st.mustfollow ∧
    (∀ j, countsD st' j = countsD st j) ∧
    (∀ x y, coD st' x y = coD st x y) ∧
    (∀ j y, y ∈ reqD st' j ↔
      y ∈ reqD st j ∨ (j = a ∧ y = b ∧ coD st a b = countsD st a)) ∧
    (∀ j y, y ∈ exD st' j ↔
      y ∈ exD st j ∨
        (j = a ∧ y = b ∧ ¬ coD st a b = countsD st a ∧ coD st a b = 0)) ∧
    (∀ j y, y ∈ npD st' j ↔
      y ∈ npD st j ∨ (j = a ∧ y = b ∧ b ∉ beforeD st a)) ∧
    (∀ j y, y ∈ nfD st' j ↔
      y ∈ nfD st j ∨ (j = a ∧ y = b ∧ b ∉ afterD st a)) := by
  have hcnt : (ddGet 0 st.counts a).1 = countsD st a := ddGet_fst 0 st.counts a
  have hco : (ddGet 0 (ddGet [] st.cooccurs a).1 b).1 = coD st a b := by
    rw [ddGet_fst, ddGet_fst]
    rfl
  simp only [learnPair] at h
  cases hbs : dGet? st.before a with
  | none =>
      rw [hbs] at h
      exact absurd h (by simp)
  | some bs =>
      rw [hbs] at h
      cases has : dGet? st.after a with
      | none =>
          rw [has] at h
          exact absurd h (by simp)
      | some afs =>
          rw [has] at h
          have hbsd : beforeD st a = bs := by simp [beforeD, lookupD, hbs]
          have hasd : afterD st a = afs := by simp [afterD, lookupD, has]
          cases h
          refine ⟨rfl, rfl, rfl, rfl, ?_, ?_, ?_, ?_, ?_, ?_⟩
          · intro j
            exact lookupD_ddGet_snd 0 st.counts a j
          · intro x y
            show lookupD 0 (lookupD [] (dSet (ddGet [] st.cooccurs a).2 a
              (ddGet 0 (ddGet [] st.cooccurs a).1 b).2) x) y = _
            rw [lookupD_dSet]
            by_cases hxa : a = x
            · subst hxa
              rw [if_pos rfl, lookupD_ddGet_snd, ddGet_fst]
              rfl
            · rw [if_neg hxa, lookupD_ddGet_snd]
              rfl
          · intro j y
            show y ∈ lookupD []
              (if (ddGet 0 (ddGet [] st.cooccurs a).1 b).1 = (ddGet 0 st.counts a).1
                then (dSet (ddGet [] st.requires a).2 a
                  (setAdd (ddGet [] st.requires a).1 b), st.excludes)
                else if (ddGet 0 (ddGet [] st.cooccurs a).1 b).1 = 0
                  then (st.requires, dSet (ddGet [] st.excludes a).2 a
                    (setAdd (ddGet [] st.excludes a).1 b))
                  else (st.requires, st.excludes)).1 j ↔ _
            rw [hco, hcnt]
            by_cases hcond : coD st a b = countsD st a
            · rw [if_pos hcond]
              show y ∈ lookupD [] (dSet (ddGet [] st.requires a).2 a
                (setAdd (ddGet [] st.requires a).1 b)) j ↔ _
              rw [lookupD_dSet]
              by_cases hja : a = j
              · subst hja
                rw [if_pos rfl]
                rw [mem_setAdd, ddGet_fst]
                constructor
                · rintro (hy | rfl)
                  · exact Or.inl hy
                  · exact Or.inr ⟨rfl, rfl, hcond⟩
                · rintro (hy | ⟨_, rfl, _⟩)
                  · exact Or.inl hy
                  · exact Or.inr rfl
              · rw [if_neg hja, lookupD_ddGet_snd]
                have : ¬ j = a := fun hc => hja hc.symm
                simp [this, reqD]
            · rw [if_neg hcond]
              by_cases hz : coD st a b = 0
              · rw [if_pos hz]
                simp [reqD, hcond]
              · rw [if_neg hz]
                simp [reqD, hcond]
          · intro j y
            show y ∈ lookupD []
              (if (ddGet 0 (ddGet [] st.cooccurs a).1 b).1 = (ddGet 0 st.counts a).1
                then (dSet (ddGet [] st.requires a).2 a
                  (setAdd (ddGet [] st.requires a).1 b), st.excludes)
                else if (ddGet 0 (ddGet [] st.cooccurs a).1 b).1 = 0
                  then (st.requires, dSet (ddGet [] st.excludes a).2 a
                    (setAdd (ddGet [] st.excludes a).1 b))
                  else (st.requires, st.excludes)).2 j ↔ _
            rw [hco, hcnt]
            by_cases hcond : coD st a b = countsD st a
            · rw [if_pos hcond]
              simp [exD, hcond]
            · rw [if_neg hcond]
              by_cases hz : coD st a b = 0
              · rw [if_pos hz]
                show y ∈ lookupD [] (dSet (ddGet [] st.excludes a).2 a
                  (setAdd (ddGet [] st.excludes a).1 b)) j ↔ _
                rw [lookupD_dSet]
                by_cases hja : a = j
                · subst hja
                  rw [if_pos rfl, mem_setAdd, ddGet_fst]
                  constructor
                  · rintro (hy | rfl)
                    · exact Or.inl hy
                    · exact Or.inr ⟨rfl, rfl, hcond, hz⟩
                  · rintro (hy | ⟨_, rfl, _, _⟩)
                    · exact Or.inl hy
                    · exact Or.inr rfl
                · rw [if_neg hja, lookupD_ddGet_snd]
                  have : ¬ j = a := fun hc => hja hc.symm
                  simp [this, exD]
              · rw [if_neg hz]
                simp [exD, hcond, hz]
          · intro j y
            show y ∈ lookupD []
              (if b ∈ bs then st.noprecede
               else dSet (ddGet [] st.noprecede a).2 a
                 (setAdd (ddGet [] st.noprecede a).1 b)) j ↔ _
            rw [hbsd]
            by_cases hmem : b ∈ bs
            · rw [if_pos hmem]
              simp [npD, hmem]
            · rw [if_neg hmem]
              rw [lookupD_dSet]
              by_cases hja : a = j
              · subst hja
                rw [if_pos rfl, mem_setAdd, ddGet_fst]
                constructor
                · rintro (hy | rfl)
                  · exact Or.inl hy
                  · exact Or.inr ⟨rfl, rfl, hmem⟩
                · rintro (hy | ⟨_, rfl, _⟩)
                  · exact Or.inl hy
                  · exact Or.inr rfl
              · rw [if_neg hja, lookupD_ddGet_snd]
                have : ¬ j = a := fun hc => hja hc.symm
                simp [this, npD]
          · intro j y
            show y ∈ lookupD []
              (if b ∈ afs then st.nofollow
               else dSet (ddGet [] st.nofollow a).2 a
                 (setAdd (ddGet [] st.nofollow a).1 b)) j ↔ _
            rw [hasd]
            by_cases hmem : b ∈ afs
            · rw [if_pos hmem]
              simp [nfD, hmem]
            · rw [if_neg hmem]
              rw [lookupD_dSet]
              by_cases hja : a = j
              · subst hja
                rw [if_pos rfl, mem_setAdd, ddGet_fst]
                constructor
                · rintro (hy | rfl)
                  · exact Or.inl hy
                  · exact Or.inr ⟨rfl, rfl, hmem⟩
                · rintro (hy | ⟨_, rfl, _⟩)
                  · exact Or.inl hy
                  · exact Or.inr rfl
              · rw [if_neg hja, lookupD_ddGet_snd]
                have : ¬ j = a := fun hc => hja hc.symm
                simp [this, nfD]

theorem or_collect {X P : Prop} {C : String → Prop} {y b : String} {l : List String} :
    ((X ∨ (P ∧ y = b ∧ C b)) ∨ (P ∧ y ∈ l ∧ C y)) ↔
      (X ∨ (P ∧ y ∈ b :: l ∧ C y)) := by
  constructor
  · rintro ((hx | ⟨hp, rfl, hc⟩) | ⟨hp, hy, hc⟩)
    · exact Or.inl hx
    · exact Or.inr ⟨hp, List.mem_cons_self _ _, hc⟩
    · exact Or.inr ⟨hp, List.mem_cons_of_mem _ hy, hc⟩
  · rintro (hx | ⟨hp, hy, hc⟩)
    · exact Or.inl (Or.inl hx)
    · rcases List.mem_cons.1 hy with rfl | hy'
      · exact Or.inl (Or.inr ⟨hp, rfl, hc⟩)
      · exact Or.inr ⟨hp, hy', hc⟩

theorem or_collect2 {X : Prop} {D : String → Prop} {j a : String} {al : List String} :
    ((X ∨ (j = a ∧ D a)) ∨ (j ∈ al ∧ D j)) ↔ (X ∨ (j ∈ a :: al ∧ D j)) := by
  constructor
  · rintro ((hx | ⟨rfl, hd⟩) | ⟨hj, hd⟩)
    · exact Or.inl hx
    · exact Or.inr ⟨List.mem_cons_self _ _, hd⟩
    · exact Or.inr ⟨List.mem_cons_of_mem _ hj, hd⟩
  · rintro (hx | ⟨hj, hd⟩)
    · exact Or.inl (Or.inl hx)
    · rcases List.mem_cons.1 hj with rfl | hj'
      · exact Or.inl (Or.inr ⟨rfl, hd⟩)
      · exact Or.inr ⟨hj', hd⟩

theorem learnInner_effects {a : String} :
    ∀ (l : List String) (st : AGLearner),
      (dGet? st.before a).isSome → (dGet? st.after a).isSome →
      ∃ st', l.foldlM (fun st2 sym2 => learnPair st2 a sym2) st = .ok st' ∧
        st'.before = st.before ∧ st'.after = st.after ∧
        st'.mustprecede = st.mustprecede ∧ st'.mustfollow = st.mustfollow ∧
        (∀ j, countsD st' j = countsD st j) ∧
        (∀ x y, coD st' x y = coD st x y) ∧
        (∀ j y, y ∈ reqD st' j ↔
          y ∈ reqD st j ∨ (j = a ∧ y ∈ l ∧ coD st a y = countsD st a)) ∧
        (∀ j y, y ∈ exD st' j ↔
          y ∈ exD st j ∨
            (j = a ∧ y ∈ l ∧ ¬ coD st a y = countsD st a ∧ coD st a y = 0)) ∧
        (∀ j y, y ∈ npD st' j ↔
          y ∈ npD st j ∨ (j = a ∧ y ∈ l ∧ y ∉ beforeD st a)) ∧
        (∀ j y, y ∈ nfD st' j ↔
          y ∈ nfD st j ∨ (j = a ∧ y ∈ l ∧ y ∉ afterD st a)) := by
  intro l
  induction l with
  | nil =>
      intro st _ _
      exact ⟨st, rfl, rfl, rfl, rfl, rfl, fun _ => rfl, fun _ _ => rfl,
        by simp, by simp, by simp, by simp⟩
  | cons b bl ih =>
      intro st hb ha
      obtain ⟨st1, hok⟩ := learnPair_ok_of_isSome b hb ha
      obtain ⟨hbf, haf, hmp, hmf, hcnt, hco, hreq, hex, hnp, hnf⟩ :=
        learnPair_effects hok
      obtain ⟨st2, hfold, hbf2, haf2, hmp2, hmf2, hcnt2, hco2, hreq2, hex2,
        hnp2, hnf2⟩ := ih st1 (by rw [hbf]; exact hb) (by rw [haf]; exact ha)
      refine ⟨st2, ?_, by rw [hbf2, hbf], by rw [haf2, haf],
        by rw [hmp2, hmp], by rw [hmf2, hmf],
        fun j => by rw [hcnt2, hcnt], fun x y => by rw [hco2, hco],
        ?_, ?_, ?_, ?_⟩
      · rw [List.foldlM_cons, hok, ok_bind, hfold]
      · intro j y
        rw [hreq2, hreq]
        simp only [hco, hcnt]
        exact @or_collect (y ∈ reqD st j) (j = a)
          (fun z => coD st a z = countsD st a) y b bl
      · intro j y
        rw [hex2, hex]
        simp only [hco, hcnt]
        exact @or_collect (y ∈ exD st j) (j = a)
          (fun z => ¬ coD st a z = countsD st a ∧ coD st a z = 0) y b bl
      · intro j y
        rw [hnp2, hnp]
        have hbfD : ∀ k, beforeD st1 k = beforeD st k := by
          intro k
          unfold beforeD
          rw [hbf]
        simp only [hbfD]
        exact @or_collect (y ∈ npD st j) (j = a)
          (fun z => z ∉ beforeD st a) y b bl
      · intro j y
        rw [hnf2, hnf]
        have hafD : ∀ k, afterD st1 k = afterD st k := by
          intro k
          unfold afterD
          rw [haf]
        simp only [hafD]
        exact @or_collect (y ∈ nfD st j) (j = a)
          (fun z => z ∉ afterD st a) y b bl

theorem learnOuter_effects :
    ∀ (al : List String) (st : AGLearner),
      (∀ a ∈ al, (dGet? st.before a).isSome ∧ (dGet? st.after a).isSome) →
      ∃ st',
        al.foldlM (fun st1 sym1 =>
          SYMBOLS.foldlM (fun st2 sym2 => learnPair st2 sym1 sym2) st1) st
            = .ok st' ∧
        st'.before = st.before ∧ st'.after = st.after ∧
        st'.mustprecede = st.mustprecede ∧ st'.mustfollow = st.mustfollow ∧
        (∀ j, countsD st' j = countsD st j) ∧
        (∀ x y, coD st' x y = coD st x y) ∧
        (∀ j y, y ∈ reqD st' j ↔
          y ∈ reqD st j ∨ (j ∈ al ∧ y ∈ SYMBOLS ∧ coD st j y = countsD st j)) ∧
        (∀ j y, y ∈ exD st' j ↔
          y ∈ exD st j ∨ (j ∈ al ∧ y ∈ SYMBOLS ∧
            ¬ coD st j y = countsD st j ∧ coD st j y = 0)) ∧
        (∀ j y, y ∈ npD st' j ↔
          y ∈ npD st j ∨ (j ∈ al ∧ y ∈ SYMBOLS ∧ y ∉ beforeD st j)) ∧
        (∀ j y, y ∈ nfD st' j ↔
          y ∈ nfD st j ∨ (j ∈ al ∧ y ∈ SYMBOLS ∧ y ∉ afterD st j)) := by
  intro al
  induction al with
  | nil =>
      intro st _
      exact ⟨st, rfl, rfl, rfl, rfl, rfl, fun _ => rfl, fun _ _ => rfl,
        by simp, by simp, by simp, by simp⟩
  | cons a as ih =>
      intro st hdoms
      obtain ⟨ha1, ha2⟩ := hdoms a (List.mem_cons_self _ _)
      obtain ⟨st1, hfold1, hbf, haf, hmp, hmf, hcnt, hco, hreq, hex, hnp, hnf⟩ :=
        learnInner_effects SYMBOLS st ha1 ha2
      obtain ⟨st2, hfold2, hbf2, haf2, hmp2, hmf2, hcnt2, hco2, hreq2, hex2,
        hnp2, hnf2⟩ := ih st1
          (fun x hx => by
            rw [hbf, haf]
            exact hdoms x (List.mem_cons_of_mem _ hx))
      have hbfD : ∀ k, beforeD st1 k = beforeD st k := by
        intro k
        unfold beforeD
        rw [hbf]
      have hafD : ∀ k, afterD st1 k = afterD st k := by
        intro k
        unfold afterD
        rw [haf]
      refine ⟨st2, ?_, by rw [hbf2, hbf], by rw [haf2, haf],
        by rw [hmp2, hmp], by rw [hmf2, hmf],
        fun j => by rw [hcnt2, hcnt], fun x y => by rw [hco2, hco],
        ?_, ?_, ?_, ?_⟩
      · rw [List.foldlM_cons, hfold1, ok_bind, hfold2]
      · intro j y
        rw [hreq2, hreq]
        simp only [hco, hcnt]
        exact @or_collect2 (y ∈ reqD st j)
          (fun z => y ∈ SYMBOLS ∧ coD st z y = countsD st z) j a as
      · intro j y
        rw [hex2, hex]
        simp only [hco, hcnt]
        exact @or_collect2 (y ∈ exD st j)
          (fun z => y ∈ SYMBOLS ∧ ¬ coD st z y = countsD st z ∧ coD st z y = 0)
          j a as
      · intro j y
        rw [hnp2, hnp]
        simp only [hbfD]
        exact @or_collect2 (y ∈ npD st j)
          (fun z => y ∈ SYMBOLS ∧ y ∉ beforeD st z) j a as
      · intro j y
        rw [hnf2, hnf]
        simp only [hafD]
        exact @or_collect2 (y ∈ nfD st j)
          (fun z => y ∈ SYMBOLS ∧ y ∉ afterD st z) j a as

theorem learnPhase_effects {st st' : AGLearner} (h : learnPhase st = .ok st')
    (hdoms : ∀ a ∈ SYMBOLS, (dGet? st.before a).isSome ∧ (dGet? st.after a).isSome) :
    st'.before = st.before ∧ st'.after = st.after ∧
    st'.mustprecede = st.mustprecede ∧ st'.mustfollow = st.mustfollow ∧
    (∀ j, countsD st' j = countsD st j) ∧
    (∀ x y, coD st' x y = coD st x y) ∧
    (∀ j y, y ∈ reqD st' j ↔
      y ∈ reqD st j ∨ (j ∈ SYMBOLS ∧ y ∈ SYMBOLS ∧ coD st j y = countsD st j)) ∧
    (∀ j y, y ∈ exD st' j ↔
      y ∈ exD st j ∨ (j ∈ SYMBOLS ∧ y ∈ SYMBOLS ∧
        ¬ coD st j y = countsD st j ∧ coD st j y = 0)) ∧
    (∀ j y, y ∈ npD st' j ↔
      y ∈ npD st j ∨ (j ∈ SYMBOLS ∧ y ∈ SYMBOLS ∧ y ∉ beforeD st j)) ∧
    (∀ j y, y ∈ nfD st' j ↔
      y ∈ nfD st j ∨ (j ∈ SYMBOLS ∧ y ∈ SYMBOLS ∧ y ∉ afterD st j)) := by
  obtain ⟨st2, hfold, props⟩ := learnOuter_effects SYMBOLS st hdoms
  unfold learnPhase at h
  rw [hfold] at h
  cases h
  exact props

/-! ## Invariants of the training pass -/

theorem dGet?_map_isSome {α : Type} (f : String → α) :
    ∀ (l : List String) (j : String),
      (dGet? (l.map (fun s => (s, f s))) j).isSome ↔ j ∈ l := by
  intro l
  induction l with
  | nil => intro j; simp [dGet?]
  | cons x xs ih =>
      intro j
      by_cases hx : x = j
      · subst hx
        simp [dGet?]
      · have hx' : ¬ j = x := fun hc => hx hc.symm
        simp [dGet?, hx, hx', ih]

theorem dGet?_map_const {α : Type} (c : α) :
    ∀ (l : List String) (j : String),
      dGet? (l.map (fun s => (s, c))) j = if j ∈ l then some c else none := by
  intro l
  induction l with
  | nil => intro j; simp [dGet?]
  | cons x xs ih =>
      intro j
      by_cases hx : x = j
      · subst hx
        simp [dGet?]
      · have hx' : ¬ j = x := fun hc => hx hc.symm
        simp [dGet?, hx, hx', ih]

theorem domsOK_init : domsOK initLearner := by
  refine ⟨?_, ?_, ?_, ?_⟩ <;>
    intro j <;>
    simp [initLearner, dGet?_map_isSome]

theorem domsOK_trainPos {line : List String} {st st' : AGLearner} {p : Nat × String}
    (h : trainPos line st p = .ok st') (hd : domsOK st) : domsOK st' := by
  obtain ⟨h1, h2, h3, h4⟩ := trainPos_isSome h (j := default)
  refine ⟨?_, ?_, ?_, ?_⟩ <;> intro j
  · rw [(trainPos_isSome h j).1]
    exact hd.1 j
  · rw [(trainPos_isSome h j).2.1]
    exact hd.2.1 j
  · rw [(trainPos_isSome h j).2.2.1]
    exact hd.2.2.1 j
  · rw [(trainPos_isSome h j).2.2.2]
    exact hd.2.2.2 j

theorem domsOK_trainLine {st st' : AGLearner} {line : List String}
    (h : trainLine st line = .ok st') (hd : domsOK st) : domsOK st' :=
  foldlM_induct (enumF 0 line) st st'
    (fun b p b' _ hb hstep => domsOK_trainPos hstep hb) hd h

theorem rulesNil_trainLine {st st' : AGLearner} {line : List String}
    (h : trainLine st line = .ok st') (hr : rulesNil st) : rulesNil st' :=
  foldlM_induct (enumF 0 line) st st'
    (fun b p b' _ hb hstep => by
      obtain ⟨h1, h2, h3, h4⟩ := trainPos_rules hstep
      exact ⟨h1.trans hb.1, h2.trans hb.2.1, h3.trans hb.2.2.1,
        h4.trans hb.2.2.2⟩) hr h

theorem coBounded_trainPos {line : List String} {st st' : AGLearner}
    {p : Nat × String} (h : trainPos line st p = .ok st') (hb : coBounded st) :
    coBounded st' := by
  intro x y
  rw [trainPos_counts h x, trainPos_coD h x y]
  have hxy := hb x y
  by_cases hx : p.2 = x
  · rw [if_pos hx]
    by_cases hm : p.2 = x ∧ y ∈ otherAt line p.1
    · rw [if_pos hm]
      omega
    · rw [if_neg hm]
      omega
  · rw [if_neg hx, if_neg (fun hc : p.2 = x ∧ y ∈ otherAt line p.1 => hx hc.1)]
    omega

theorem coBounded_trainLine {st st' : AGLearner} {line : List String}
    (h : trainLine st line = .ok st') (hb : coBounded st) : coBounded st' :=
  foldlM_induct (enumF 0 line) st st'
    (fun b p b' _ hbb hstep => coBounded_trainPos hstep hbb) hb h

theorem tokens_in_SYMBOLS_of_trainLine {st st' : AGLearner} {line : List String}
    (h : trainLine st line = .ok st') (hd : domsOK st) (hlen : 2 ≤ line.length) :
    ∀ t ∈ line, t ∈ SYMBOLS := by
  intro t ht
  obtain ⟨i, hi⟩ := exists_enumF_of_mem ht 0
  obtain ⟨s1, s2, hP, hstep⟩ := foldlM_mem_step (enumF 0 line) st st'
    (fun b p b' _ hb hs => domsOK_trainPos hs hb) hd h (i, t) hi
  obtain ⟨j, hget, hij⟩ := (mem_enumF line 0).1 hi
  have hjlt : j < line.length := List.get?_eq_some.1 hget |>.1
  have hi0 : i = j := by omega
  subst hi0
  by_cases hz : i = 0
  · subst hz
    have hdropne : line.drop 1 ≠ [] := by
      intro hc
      have := List.drop_eq_nil_iff_le.1 hc
      omega
    have hfne : folAt line 0 ≠ [] := pySet_ne_nil hdropne
    have := trainPos_after_isSome_of_ok hstep hfne
    exact (hP.2.1 t).1 this
  · have htakene : line.take i ≠ [] := by
      intro hc
      have hlen0 : (line.take i).length = 0 := by
        rw [hc]
        rfl
      rw [List.length_take] at hlen0
      rcases Nat.min_eq_zero_iff.1 hlen0 with h0 | h0 <;> omega
    have hpne : preAt line i ≠ [] := pySet_ne_nil htakene
    have := trainPos_before_isSome_of_ok hstep hpne
    exact (hP.1 t).1 this

theorem obsSub_trainLine {st st' : AGLearner} {line : List String}
    (h : trainLine st line = .ok st') (hd : domsOK st) (hs : obsSub st) :
    obsSub st' := by
  by_cases hlen : 2 ≤ line.length
  · have htok := tokens_in_SYMBOLS_of_trainLine h hd hlen
    refine foldlM_induct (enumF 0 line) st st' ?_ hs h
    rintro b p b' hp ⟨hbb, hba⟩ hstep
    constructor
    · intro j y hy
      rcases (trainPos_before_mem hstep j y).1 hy with hy' | ⟨_, hy'⟩
      · exact hbb j y hy'
      · exact htok y (List.take_subset _ _ (mem_pySet.1 hy'))
    · intro j y hy
      rcases (trainPos_after_mem hstep j y).1 hy with hy' | ⟨_, hy'⟩
      · exact hba j y hy'
      · exact htok y (List.drop_subset _ _ (mem_pySet.1 hy'))
  · refine foldlM_induct (enumF 0 line) st st' ?_ hs h
    rintro b p b' hp ⟨hbb, hba⟩ hstep
    obtain ⟨j, hget, hij⟩ := (mem_enumF line 0).1 hp
    have hjlt : j < line.length := List.get?_eq_some.1 hget |>.1
    have hlen1 : line.length = 1 := by omega
    have hj0 : j = 0 := by omega
    have hp0 : p.1 = 0 := by omega
    have hpre : preAt line p.1 = [] := by
      rw [hp0]
      rfl
    have hfol : folAt line p.1 = [] := by
      unfold folAt
      rw [hp0]
      have : line.drop 1 = [] := List.drop_eq_nil_iff_le.2 (by omega)
      rw [this]
      rfl
    constructor
    · intro k y hy
      rcases (trainPos_before_mem hstep k y).1 hy with hy' | ⟨_, hy'⟩
      · exact hbb k y hy'
      · rw [hpre] at hy'
        exact absurd hy' (List.not_mem_nil y)
    · intro k y hy
      rcases (trainPos_after_mem hstep k y).1 hy with hy' | ⟨_, hy'⟩
      · exact hba k y hy'
      · rw [hfol] at hy'
        exact absurd hy' (List.not_mem_nil y)

theorem trainCorpus_ok_cases {corpus : List (List String)} {st' : AGLearner}
    (h : trainCorpus corpus = .ok st') :
    ∃ σ, corpus.foldlM trainLine initLearner = .ok σ ∧ learnPhase σ = .ok st' := by
  unfold trainCorpus at h
  cases hfold : corpus.foldlM trainLine initLearner with
  | error e =>
      rw [hfold] at h
      cases h
  | ok σ =>
      rw [hfold] at h
      exact ⟨σ, rfl, h⟩

/-- All four invariants hold for the state after the input pass. -/
theorem lineFold_inv {corpus : List (List String)} {σ : AGLearner}
    (h : corpus.foldlM trainLine initLearner = .ok σ) :
    domsOK σ ∧ rulesNil σ ∧ coBounded σ ∧ obsSub σ := by
  refine @foldlM_induct AGLearner (List String) trainLine
    (fun st => domsOK st ∧ rulesNil st ∧ coBounded st ∧ obsSub st)
    corpus initLearner σ ?_ ?_ h
  · rintro b line b' _ ⟨hd, hr, hc, hs⟩ hstep
    exact ⟨domsOK_trainLine hstep hd, rulesNil_trainLine hstep hr,
      coBounded_trainLine hstep hc, obsSub_trainLine hstep hd hs⟩
  · refine ⟨domsOK_init, ⟨rfl, rfl, rfl, rfl⟩, ?_, ?_⟩
    · intro x y
      simp [coD, countsD, lookupD, initLearner, dGet?]
    · constructor <;>
        · intro j y hy
          exfalso
          revert hy
          show y ∈ lookupD [] (SYMBOLS.map (fun s => (s, []))) j → False
          rw [lookupD, dGet?_map_const]
          split <;> simp

/-- Characterization of a trained state: the final rule tables are determined
by the counts and observation sets accumulated during the input pass. -/
theorem trainCorpus_char {corpus : List (List String)} {st : AGLearner}
    (h : trainCorpus corpus = .ok st) :
    ∃ σ, corpus.foldlM trainLine initLearner = .ok σ ∧
      domsOK σ ∧ rulesNil σ ∧ coBounded σ ∧ obsSub σ ∧
      st.before = σ.before ∧ st.after = σ.after ∧
      st.mustprecede = σ.mustprecede ∧ st.mustfollow = σ.mustfollow ∧
      (∀ j, countsD st j = countsD σ j) ∧
      (∀ x y, coD st x y = coD σ x y) ∧
      (∀ j y, y ∈ reqD st j ↔
        j ∈ SYMBOLS ∧ y ∈ SYMBOLS ∧ coD σ j y = countsD σ j) ∧
      (∀ j y, y ∈ exD st j ↔
        j ∈ SYMBOLS ∧ y ∈ SYMBOLS ∧
          ¬ coD σ j y = countsD σ j ∧ coD σ j y = 0) ∧
      (∀ j y, y ∈ npD st j ↔
        j ∈ SYMBOLS ∧ y ∈ SYMBOLS ∧ y ∉ beforeD σ j) ∧
      (∀ j y, y ∈ nfD st j ↔
        j ∈ SYMBOLS ∧ y ∈ SYMBOLS ∧ y ∉ afterD σ j) := by
  obtain ⟨σ, hfold, hlearn⟩ := trainCorpus_ok_cases h
  obtain ⟨hdom, hrn, hcb, hos⟩ := lineFold_inv hfold
  obtain ⟨hbf, haf, hmp, hmf, hcnt, hco, hreq, hex, hnp, hnf⟩ :=
    learnPhase_effects hlearn
      (fun a ha => ⟨(hdom.1 a).2 ha, (hdom.2.1 a).2 ha⟩)
  have hreqnil : ∀ j y, y ∈ reqD σ j → False := by
    intro j y hy
    rw [reqD, hrn.1] at hy
    simp [lookupD, dGet?] at hy
  have hexnil : ∀ j y, y ∈ exD σ j → False := by
    intro j y hy
    rw [exD, hrn.2.1] at hy
    simp [lookupD, dGet?] at hy
  have hnpnil : ∀ j y, y ∈ npD σ j → False := by
    intro j y hy
    rw [npD, hrn.2.2.1] at hy
    simp [lookupD, dGet?] at hy
  have hnfnil : ∀ j y, y ∈ nfD σ j → False := by
    intro j y hy
    rw [nfD, hrn.2.2.2] at hy
    simp [lookupD, dGet?] at hy
  refine ⟨σ, hfold, hdom, hrn, hcb, hos, hbf, haf, hmp, hmf, hcnt, hco,
    ?_, ?_, ?_, ?_⟩
  · intro j y
    rw [hreq j y]
    constructor
    · rintro (hy | hy)
      · exact absurd hy (fun hc => hreqnil j y hc)
      · exact hy
    · exact Or.inr
  · intro j y
    rw [hex j y]
    constructor
    · rintro (hy | hy)
      · exact absurd hy (fun hc => hexnil j y hc)
      · exact hy
    · exact Or.inr
  · intro j y
    rw [hnp j y]
    constructor
    · rintro (hy | hy)
      · exact absurd hy (fun hc => hnpnil j y hc)
      · exact hy
    · exact Or.inr
  · intro j y
    rw [hnf j y]
    constructor
    · rintro (hy | hy)
      · exact absurd hy (fun hc => hnfnil j y hc)
      · exact hy
    · exact Or.inr

/-- The final trained state keeps the plain-dict domain invariant. -/
theorem domsOK_trainCorpus {corpus : List (List String)} {st : AGLearner}
    (h : trainCorpus corpus = .ok st) : domsOK st := by
  obtain ⟨σ, _, hdom, _, _, _, hbf, haf, hmp, hmf, _⟩ := trainCorpus_char h
  refine ⟨?_, ?_, ?_, ?_⟩ <;> intro j
  · rw [hbf]
    exact hdom.1 j
  · rw [haf]
    exact hdom.2.1 j
  · rw [hmp]
    exact hdom.2.2.1 j
  · rw [hmf]
    exact hdom.2.2.2 j

/-! ## Claim C1 -/

/-- C1 (counterexample): after training on the single line `a`, the symbol `c`
never occurs (count 0), yet its Requires set is the full alphabet and its
Excludes set is empty — the opposite of the claimed
`Excludes(A) = full alphabet, Requires(A) = ∅` classification. -/
theorem c1_counterexample :
    countsD (getOk initLearner (trainCorpus [["a"]])) "c" = 0 ∧
    reqD (getOk initLearner (trainCorpus [["a"]])) "c" = SYMBOLS ∧
    exD (getOk initLearner (trainCorpus [["a"]])) "c" = [] := by
  refine ⟨?_, ?_, ?_⟩ <;> rfl

/-- C1 (amended): if a symbol `A` of the alphabet never appears in the corpus
(occurrence count 0 after a successful `train`), then `Requires(A)` is the
full alphabet and `Excludes(A)` is empty: the zero co-occurrence count
satisfies the saturation equality `0 = count` checked first, so every pair is
classified as Requires, and the Excludes branch never fires. -/
theorem c1_never_seen_requires_all {corpus : List (List String)}
    {st : AGLearner} {A : String} (h : trainCorpus corpus = .ok st)
    (hA : A ∈ SYMBOLS) (h0 : countsD st A = 0) :
    (∀ B, B ∈ reqD st A ↔ B ∈ SYMBOLS) ∧ exD st A = [] := by
  obtain ⟨σ, hfold, hdom, hrn, hcb, hos, _, _, _, _, hcnt, hco, hreq, hex,
    _, _⟩ := trainCorpus_char h
  have h0' : countsD σ A = 0 := by
    rw [← hcnt A]
    exact h0
  have hz : ∀ B, coD σ A B = 0 := by
    intro B
    have := hcb A B
    omega
  constructor
  · intro B
    rw [hreq A B]
    constructor
    · rintro ⟨_, hB, _⟩
      exact hB
    · intro hB
      exact ⟨hA, hB, by rw [hz B, h0']⟩
  · refine List.eq_nil_iff_forall_not_mem.2 ?_
    intro B hB
    obtain ⟨_, _, hne, _⟩ := (hex A B).1 hB
    exact hne (by rw [hz B, h0'])

/-- C1 (witness for the amended claim at a concrete input). -/
theorem c1_witness :
    (∀ B, B ∈ reqD (getOk initLearner (trainCorpus [["a"]])) "c" ↔ B ∈ SYMBOLS) ∧
    exD (getOk initLearner (trainCorpus [["a"]])) "c" = [] :=
  @c1_never_seen_requires_all [["a"]]
    (getOk initLearner (trainCorpus [["a"]])) "c" rfl (by decide) (by decide)

/-! ## Claim C4 -/

/-- C4: after training on any corpus, no alphabet pair `(A, B)` has `B` in
both `Requires(A)` and `Excludes(A)`: the learning loop classifies each pair
with mutually exclusive `if`/`elif` conditions. -/
theorem c4_requires_excludes_disjoint {corpus : List (List String)}
    {st : AGLearner} {A B : String} (h : trainCorpus corpus = .ok st)
    (hA : A ∈ SYMBOLS) (hB : B ∈ SYMBOLS) :
    ¬ (B ∈ reqD st A ∧ B ∈ exD st A) := by
  obtain ⟨σ, _, _, _, _, _, _, _, _, _, _, _, hreq, hex, _, _⟩ :=
    trainCorpus_char h
  rintro ⟨h1, h2⟩
  obtain ⟨_, _, hc1⟩ := (hreq A B).1 h1
  obtain ⟨_, _, hc2, _⟩ := (hex A B).1 h2
  exact hc2 hc1

/-- C4 (witness at a concrete input). -/
theorem c4_witness :
    ¬ ("c" ∈ reqD (getOk initLearner (trainCorpus [["a", "c"]])) "a" ∧
       "c" ∈ exD (getOk initLearner (trainCorpus [["a", "c"]])) "a") :=
  @c4_requires_excludes_disjoint [["a", "c"]]
    (getOk initLearner (trainCorpus [["a", "c"]])) "a" "c" rfl
    (by decide) (by decide)

/-! ## Claim C5: counting is per position -/

theorem trainFold_counts {line : List String} :
    ∀ (ps : List (Nat × String)) (st st' : AGLearner),
      ps.foldlM (trainPos line) st = .ok st' →
      (∀ A, countsD st' A = countsD st A +
        (ps.filter (fun p => p.2 = A)).length) ∧
      (∀ A B, coD st' A B = coD st A B +
        (ps.filter (fun p => p.2 = A ∧ B ∈ otherAt line p.1)).length) := by
  intro ps
  induction ps with
  | nil =>
      intro st st' h
      simp only [List.foldlM_nil] at h
      cases h
      simp
  | cons q qs ih =>
      intro st st' h
      rw [List.foldlM_cons] at h
      cases hq : trainPos line st q with
      | error e =>
          rw [hq] at h
          exact absurd h (by simp [error_bind])
      | ok st1 =>
          rw [hq, ok_bind] at h
          obtain ⟨ihc, ihco⟩ := ih st1 st' h
          constructor
          · intro A
            rw [ihc A, trainPos_counts hq A]
            by_cases hA : q.2 = A
            · simp [List.filter_cons, hA]
              omega
            · simp [List.filter_cons, hA]
          · intro A B
            rw [ihco A B, trainPos_coD hq A B]
            by_cases hA : q.2 = A ∧ B ∈ otherAt line q.1
            · simp [List.filter_cons, hA]
              omega
            · simp [List.filter_cons, hA]

theorem filter_enumF_eq_count {A : String} :
    ∀ (line : List String) (n : Nat),
      ((enumF n line).filter (fun p => p.2 = A)).length = line.count A := by
  intro line
  induction line with
  | nil => intro n; rfl
  | cons x xs ih =>
      intro n
      by_cases hx : x = A
      · subst hx
        simp [enumF, List.filter_cons, List.count_cons, ih]
      · simp [enumF, List.filter_cons, List.count_cons, hx, ih,
          fun hc : A = x => hx hc.symm]

theorem filter_enumF_eq_coSpecLine {A B : String} (line : List String) :
    ((enumF 0 line).filter
      (fun p => p.2 = A ∧ B ∈ otherAt line p.1)).length = coSpecLine line A B := by
  unfold coSpecLine
  congr 1
  apply List.filter_congr
  intro p _
  have hiff : (B ∈ otherAt line p.1) ↔ (B ∈ line.take p.1 ++ line.drop (p.1 + 1)) := by
    unfold otherAt preAt folAt
    rw [mem_setUnion, mem_pySet, mem_pySet, List.mem_append]
  exact decide_eq_decide.mpr (and_congr_right fun _ => hiff)

theorem lineFold_counts :
    ∀ (corpus : List (List String)) (st st' : AGLearner),
      corpus.foldlM trainLine st = .ok st' →
      (∀ A, countsD st' A = countsD st A + occSpec corpus A) ∧
      (∀ A B, coD st' A B = coD st A B + coSpec corpus A B) := by
  intro corpus
  induction corpus with
  | nil =>
      intro st st' h
      simp only [List.foldlM_nil] at h
      cases h
      simp [occSpec, coSpec]
  | cons line rest ih =>
      intro st st' h
      rw [List.foldlM_cons] at h
      cases hline : trainLine st line with
      | error e =>
          rw [hline] at h
          exact absurd h (by simp [error_bind])
      | ok st1 =>
          rw [hline, ok_bind] at h
          obtain ⟨ihc, ihco⟩ := ih st1 st' h
          obtain ⟨lc, lco⟩ := trainFold_counts (enumF 0 line) st st1 hline
          constructor
          · intro A
            rw [ihc A, lc A, filter_enumF_eq_count line 0]
            simp [occSpec]
            omega
          · intro A B
            rw [ihco A B, lco A B, filter_enumF_eq_coSpecLine line]
            simp [coSpec]
            omega

/-- C5: counting is per position, not per sequence.  After a successful
`train`, a symbol's occurrence count is the total number of positions holding
it across the corpus, and the co-occurrence count of `(A, B)` is the number
of positions holding `A` whose sequence contains `B` at some other position
(so a symbol appearing twice in one sequence contributes twice). -/
theorem c5_per_position_counting {corpus : List (List String)} {st : AGLearner}
    (h : trainCorpus corpus = .ok st) (A B : String) :
    countsD st A = occSpec corpus A ∧ coD st A B = coSpec corpus A B := by
  obtain ⟨σ, hfold, _, _, _, _, _, _, _, _, hcnt, hco, _, _, _, _⟩ :=
    trainCorpus_char h
  obtain ⟨hc, hcc⟩ := lineFold_counts corpus initLearner σ hfold
  constructor
  · rw [hcnt A, hc A]
    show 0 + occSpec corpus A = occSpec corpus A
    omega
  · rw [hco A B, hcc A B]
    show 0 + coSpec corpus A B = coSpec corpus A B
    omega

/-- C5 (witness): on the corpus with the single line `a c a`, the symbol `a`
occurs twice in one sequence and is counted twice, and co-occurrence
`(a, c)` is 2 while `(c, a)` is 1 per position-level counting. -/
theorem c5_witness :
    countsD (getOk initLearner (trainCorpus [["a", "c", "a"]])) "a" =
        occSpec [["a", "c", "a"]] "a" ∧
      coD (getOk initLearner (trainCorpus [["a", "c", "a"]])) "a" "c" =
        coSpec [["a", "c", "a"]] "a" "c" :=
  @c5_per_position_counting [["a", "c", "a"]]
    (getOk initLearner (trainCorpus [["a", "c", "a"]])) rfl "a" "c"

/-! ## Claim C7: before/after coverage -/

/-- C7: after training, for every alphabet symbol `A`, `No-precede(A)` and
the set of symbols ever observed preceding `A` partition the alphabet:
their union is the full alphabet and they are disjoint; likewise for
`No-follow(A)` and the observed following set. -/
theorem c7_coverage {corpus : List (List String)} {st : AGLearner} {A : String}
    (h : trainCorpus corpus = .ok st) (hA : A ∈ SYMBOLS) :
    (∀ B, (B ∈ npD st A ∨ B ∈ beforeD st A) ↔ B ∈ SYMBOLS) ∧
    (∀ B, ¬ (B ∈ npD st A ∧ B ∈ beforeD st A)) ∧
    (∀ B, (B ∈ nfD st A ∨ B ∈ afterD st A) ↔ B ∈ SYMBOLS) ∧
    (∀ B, ¬ (B ∈ nfD st A ∧ B ∈ afterD st A)) := by
  obtain ⟨σ, _, _, _, _, hos, hbf, haf, _, _, _, _, _, _, hnp, hnf⟩ :=
    trainCorpus_char h
  have hbeq : ∀ j, beforeD st j = beforeD σ j := by
    intro j
    unfold beforeD
    rw [hbf]
  have haeq : ∀ j, afterD st j = afterD σ j := by
    intro j
    unfold afterD
    rw [haf]
  refine ⟨?_, ?_, ?_, ?_⟩
  · intro B
    rw [hnp A B, hbeq A]
    constructor
    · rintro (⟨_, hB, _⟩ | hB)
      · exact hB
      · exact hos.1 A B hB
    · intro hB
      by_cases hmem : B ∈ beforeD σ A
      · exact Or.inr hmem
      · exact Or.inl ⟨hA, hB, hmem⟩
  · intro B
    rw [hnp A B, hbeq A]
    rintro ⟨⟨_, _, hnot⟩, hmem⟩
    exact hnot hmem
  · intro B
    rw [hnf A B, haeq A]
    constructor
    · rintro (⟨_, hB, _⟩ | hB)
      · exact hB
      · exact hos.2 A B hB
    · intro hB
      by_cases hmem : B ∈ afterD σ A
      · exact Or.inr hmem
      · exact Or.inl ⟨hA, hB, hmem⟩
  · intro B
    rw [hnf A B, haeq A]
    rintro ⟨⟨_, _, hnot⟩, hmem⟩
    exact hnot hmem

/-- C7 (witness at a concrete input). -/
theorem c7_witness :
    (∀ B, (B ∈ npD (getOk initLearner (trainCorpus [["a", "c"]])) "a" ∨
           B ∈ beforeD (getOk initLearner (trainCorpus [["a", "c"]])) "a") ↔
          B ∈ SYMBOLS) ∧
    (∀ B, ¬ (B ∈ npD (getOk initLearner (trainCorpus [["a", "c"]])) "a" ∧
             B ∈ beforeD (getOk initLearner (trainCorpus [["a", "c"]])) "a")) ∧
    (∀ B, (B ∈ nfD (getOk initLearner (trainCorpus [["a", "c"]])) "a" ∨
           B ∈ afterD (getOk initLearner (trainCorpus [["a", "c"]])) "a") ↔
          B ∈ SYMBOLS) ∧
    (∀ B, ¬ (B ∈ nfD (getOk initLearner (trainCorpus [["a", "c"]])) "a" ∧
             B ∈ afterD (getOk initLearner (trainCorpus [["a", "c"]])) "a")) :=
  @c7_coverage [["a", "c"]] (getOk initLearner (trainCorpus [["a", "c"]])) "a"
    rfl (by decide)

/-! ## Claim C6: must-precede narrowing -/

theorem mustSub_init : mustSub initLearner := by
  constructor <;>
    · intro j y hy
      revert hy
      show y ∈ lookupD [] (SYMBOLS.map (fun s => (s, SYMBOLS))) j → _
      rw [lookupD, dGet?_map_const]
      split
      · intro hy
        exact hy
      · intro hy
        exact absurd hy (List.not_mem_nil y)

theorem mustSub_trainPos {line : List String} {st st' : AGLearner}
    {p : Nat × String} (h : trainPos line st p = .ok st') (hs : mustSub st) :
    mustSub st' := by
  constructor
  · intro j y hy
    exact hs.1 j y ((trainPos_mustp_mem h j y).1 hy).1
  · intro j y hy
    exact hs.2 j y ((trainPos_mustf_mem h j y).1 hy).1

theorem mustSub_trainLine {st st' : AGLearner} {line : List String}
    (h : trainLine st line = .ok st') (hs : mustSub st) : mustSub st' :=
  foldlM_induct (enumF 0 line) st st'
    (fun b p b' _ hb hstep => mustSub_trainPos hstep hb) hs h

theorem mustp_empty_trainPos {line : List String} {st st' : AGLearner}
    {p : Nat × String} {A : String} (h : trainPos line st p = .ok st')
    (he : mustpD st A = []) : mustpD st' A = [] := by
  refine List.eq_nil_iff_forall_not_mem.2 ?_
  intro y hy
  have := ((trainPos_mustp_mem h A y).1 hy).1
  rw [he] at this
  exact List.not_mem_nil y this

theorem mustf_empty_trainPos {line : List String} {st st' : AGLearner}
    {p : Nat × String} {A : String} (h : trainPos line st p = .ok st')
    (he : mustfD st A = []) : mustfD st' A = [] := by
  refine List.eq_nil_iff_forall_not_mem.2 ?_
  intro y hy
  have := ((trainPos_mustf_mem h A y).1 hy).1
  rw [he] at this
  exact List.not_mem_nil y this

theorem mustp_trigger_trainPos {line : List String} {st st' : AGLearner}
    {i : Nat} {A : String} (h : trainPos line st (i, A) = .ok st')
    (hpre : preAt line i = []) (hs : ∀ y, y ∈ mustpD st A → y ∈ SYMBOLS) :
    mustpD st' A = [] := by
  refine List.eq_nil_iff_forall_not_mem.2 ?_
  intro y hy
  obtain ⟨hmem, hnot⟩ := (trainPos_mustp_mem h A y).1 hy
  refine hnot ⟨rfl, hs y hmem, ?_⟩
  rw [hpre]
  exact List.not_mem_nil y

theorem mustf_trigger_trainPos {line : List String} {st st' : AGLearner}
    {i : Nat} {A : String} (h : trainPos line st (i, A) = .ok st')
    (hfol : folAt line i = []) (hs : ∀ y, y ∈ mustfD st A → y ∈ SYMBOLS) :
    mustfD st' A = [] := by
  refine List.eq_nil_iff_forall_not_mem.2 ?_
  intro y hy
  obtain ⟨hmem, hnot⟩ := (trainPos_mustf_mem h A y).1 hy
  refine hnot ⟨rfl, hs y hmem, ?_⟩
  rw [hfol]
  exact List.not_mem_nil y

theorem mustp_zero_of_trigger {line : List String} {A : String} :
    ∀ (ps : List (Nat × String)) (st st' : AGLearner),
      ps.foldlM (trainPos line) st = .ok st' → mustSub st →
      (∃ i, (i, A) ∈ ps ∧ preAt line i = []) → mustpD st' A = [] := by
  intro ps
  induction ps with
  | nil =>
      rintro st st' _ _ ⟨i, hi, _⟩
      exact absurd hi (List.not_mem_nil _)
  | cons q qs ih =>
      rintro st st' h hs ⟨i, hi, hpre⟩
      rw [List.foldlM_cons] at h
      cases hq : trainPos line st q with
      | error e =>
          rw [hq] at h
          exact absurd h (by simp [error_bind])
      | ok st1 =>
          rw [hq, ok_bind] at h
          rcases List.mem_cons.1 hi with rfl | hi'
          · have h1 : mustpD st1 A = [] :=
              mustp_trigger_trainPos hq hpre (fun y hy => hs.1 A y hy)
            exact foldlM_induct qs st1 st'
              (fun b p b' _ hb hstep => mustp_empty_trainPos hstep hb) h1 h
          · exact ih st1 st' h (mustSub_trainPos hq hs) ⟨i, hi', hpre⟩

theorem mustf_zero_of_trigger {line : List String} {A : String} :
    ∀ (ps : List (Nat × String)) (st st' : AGLearner),
      ps.foldlM (trainPos line) st = .ok st' → mustSub st →
      (∃ i, (i, A) ∈ ps ∧ folAt line i = []) → mustfD st' A = [] := by
  intro ps
  induction ps with
  | nil =>
      rintro st st' _ _ ⟨i, hi, _⟩
      exact absurd hi (List.not_mem_nil _)
  | cons q qs ih =>
      rintro st st' h hs ⟨i, hi, hfol⟩
      rw [List.foldlM_cons] at h
      cases hq : trainPos line st q with
      | error e =>
          rw [hq] at h
          exact absurd h (by simp [error_bind])
      | ok st1 =>
          rw [hq, ok_bind] at h
          rcases List.mem_cons.1 hi with rfl | hi'
          · have h1 : mustfD st1 A = [] :=
              mustf_trigger_trainPos hq hfol (fun y hy => hs.2 A y hy)
            exact foldlM_induct qs st1 st'
              (fun b p b' _ hb hstep => mustf_empty_trainPos hstep hb) h1 h
          · exact ih st1 st' h (mustSub_trainPos hq hs) ⟨i, hi', hfol⟩

theorem exists_enumF_last {A : String} :
    ∀ (l : List String), l.getLast? = some A →
      ∃ i, (i, A) ∈ enumF 0 l ∧ l.drop (i + 1) = [] := by
  intro l
  induction l with
  | nil => intro h; cases h
  | cons x xs ih =>
      intro h
      cases xs with
      | nil =>
          have hx : x = A := by
            simp [List.getLast?] at h
            exact h
          subst hx
          exact ⟨0, List.mem_cons_self _ _, rfl⟩
      | cons y ys =>
          have h' : (y :: ys).getLast? = some A := by
            simpa [List.getLast?_cons_cons] using h
          obtain ⟨i, hi, hdrop⟩ := ih h'
          obtain ⟨j, hget, hij⟩ := (mem_enumF _ 0).1 hi
          refine ⟨i + 1, ?_, ?_⟩
          · exact (mem_enumF _ 0).2 ⟨j + 1, by simpa using hget, by omega⟩
          · show (x :: y :: ys).drop (i + 1 + 1) = []
            rw [List.drop_succ_cons]
            exact hdrop

theorem mustp_empty_trainLine {st st' : AGLearner} {l : List String} {A : String}
    (h : trainLine st l = .ok st') (he : mustpD st A = []) : mustpD st' A = [] :=
  foldlM_induct (enumF 0 l) st st'
    (fun b p b' _ hb hstep => mustp_empty_trainPos hstep hb) he h

theorem mustf_empty_trainLine {st st' : AGLearner} {l : List String} {A : String}
    (h : trainLine st l = .ok st') (he : mustfD st A = []) : mustfD st' A = [] :=
  foldlM_induct (enumF 0 l) st st'
    (fun b p b' _ hb hstep => mustf_empty_trainPos hstep hb) he h

theorem corpus_mustp_zero {A : String} :
    ∀ (corpus : List (List String)) (st st' : AGLearner),
      corpus.foldlM trainLine st = .ok st' → mustSub st →
      (∃ line ∈ corpus, line.head? = some A) → mustpD st' A = [] := by
  intro corpus
  induction corpus with
  | nil =>
      rintro st st' _ _ ⟨line, hline, _⟩
      exact absurd hline (List.not_mem_nil _)
  | cons l rest ih =>
      rintro st st' h hs ⟨line, hline, hhead⟩
      rw [List.foldlM_cons] at h
      cases hl : trainLine st l with
      | error e =>
          rw [hl] at h
          exact absurd h (by simp [error_bind])
      | ok st1 =>
          rw [hl, ok_bind] at h
          rcases List.mem_cons.1 hline with rfl | hline'
          · have h1 : mustpD st1 A = [] := by
              cases hcase : line with
              | nil =>
                  rw [hcase] at hhead
                  cases hhead
              | cons t tail =>
                  rw [hcase] at hhead
                  have ht : t = A := by
                    simpa using hhead
                  rw [hcase] at hl
                  rw [← ht]
                  exact mustp_zero_of_trigger (enumF 0 (t :: tail)) st st1 hl hs
                    ⟨0, List.mem_cons_self _ _, rfl⟩
            exact foldlM_induct rest st1 st'
              (fun b l2 b' _ hb hstep => mustp_empty_trainLine hstep hb) h1 h
          · exact ih st1 st' h (mustSub_trainLine hl hs) ⟨line, hline', hhead⟩

theorem corpus_mustf_zero {A : String} :
    ∀ (corpus : List (List String)) (st st' : AGLearner),
      corpus.foldlM trainLine st = .ok st' → mustSub st →
      (∃ line ∈ corpus, line.getLast? = some A) → mustfD st' A = [] := by
  intro corpus
  induction corpus with
  | nil =>
      rintro st st' _ _ ⟨line, hline, _⟩
      exact absurd hline (List.not_mem_nil _)
  | cons l rest ih =>
      rintro st st' h hs ⟨line, hline, hlast⟩
      rw [List.foldlM_cons] at h
      cases hl : trainLine st l with
      | error e =>
          rw [hl] at h
          exact absurd h (by simp [error_bind])
      | ok st1 =>
          rw [hl, ok_bind] at h
          rcases List.mem_cons.1 hline with rfl | hline'
          · have h1 : mustfD st1 A = [] := by
              obtain ⟨i, hi, hdrop⟩ := exists_enumF_last line hlast
              refine mustf_zero_of_trigger (enumF 0 line) st st1 hl hs ⟨i, hi, ?_⟩
              unfold folAt
              rw [hdrop]
              rfl
            exact foldlM_induct rest st1 st'
              (fun b l2 b' _ hb hstep => mustf_empty_trainLine hstep hb) h1 h
          · exact ih st1 st' h (mustSub_trainLine hl hs) ⟨line, hline', hlast⟩

/-- C6: after training on any corpus, for every alphabet symbol `A`,
`Must-precede(A)` is a subset of the alphabet and is empty whenever some
training occurrence of `A` has no preceding symbols (`A` at position 0 of a
training line); symmetrically, `Must-follow(A)` is a subset of the alphabet
and is empty whenever `A` occurs with no following symbols (`A` at the last
position of a training line). -/
theorem c6_must_narrowing {corpus : List (List String)} {st : AGLearner}
    {A : String} (h : trainCorpus corpus = .ok st) (hA : A ∈ SYMBOLS) :
    (∀ y ∈ mustpD st A, y ∈ SYMBOLS) ∧
    ((∃ line ∈ corpus, line.head? = some A) → mustpD st A = []) ∧
    (∀ y ∈ mustfD st A, y ∈ SYMBOLS) ∧
    ((∃ line ∈ corpus, line.getLast? = some A) → mustfD st A = []) := by
  obtain ⟨σ, hfold, _, _, _, _, _, _, hmp, hmf, _⟩ := trainCorpus_char h
  have hmpd : ∀ j, mustpD st j = mustpD σ j := by
    intro j
    unfold mustpD
    rw [hmp]
  have hmfd : ∀ j, mustfD st j = mustfD σ j := by
    intro j
    unfold mustfD
    rw [hmf]
  have hsub : mustSub σ :=
    foldlM_induct corpus initLearner σ
      (fun b line b' _ hb hstep => mustSub_trainLine hstep hb) mustSub_init hfold
  refine ⟨?_, ?_, ?_, ?_⟩
  · intro y hy
    rw [hmpd A] at hy
    exact hsub.1 A y hy
  · intro htrig
    rw [hmpd A]
    exact corpus_mustp_zero corpus initLearner σ hfold mustSub_init htrig
  · intro y hy
    rw [hmfd A] at hy
    exact hsub.2 A y hy
  · intro htrig
    rw [hmfd A]
    exact corpus_mustf_zero corpus initLearner σ hfold mustSub_init htrig

/-- C6 (witness): training on the single line `a c`, the symbol `a` occurs at
position 0 and `c` at the last position. -/
theorem c6_witness :
    (∀ y ∈ mustpD (getOk initLearner (trainCorpus [["a", "c"]])) "a",
        y ∈ SYMBOLS) ∧
    mustpD (getOk initLearner (trainCorpus [["a", "c"]])) "a" = [] ∧
    (∀ y ∈ mustfD (getOk initLearner (trainCorpus [["a", "c"]])) "a",
        y ∈ SYMBOLS) := by
  have h := @c6_must_narrowing [["a", "c"]]
    (getOk initLearner (trainCorpus [["a", "c"]])) "a" rfl (by decide)
  exact ⟨h.1, h.2.1 ⟨["a", "c"], List.mem_cons_self _ _, rfl⟩, h.2.2.1⟩

/-! ## Classification lemmas -/

theorem npfold_norm (sym1 : String) (msgF : String → String) :
    ∀ (l : List String) (v : Verdict) (d : Dict (List String)) (nps : List String),
      lookupD [] d sym1 = nps →
      ((l.foldl (fun (a : Verdict × Dict (List String)) x =>
          ((if x ∈ (ddGet [] a.2 sym1).1 then flagLin a.1 (msgF x) else a.1),
           (ddGet [] a.2 sym1).2)) (v, d)).1
        = l.foldl (fun v x => if x ∈ nps then flagLin v (msgF x) else v) v) ∧
      (∀ j, lookupD []
          ((l.foldl (fun (a : Verdict × Dict (List String)) x =>
            ((if x ∈ (ddGet [] a.2 sym1).1 then flagLin a.1 (msgF x) else a.1),
             (ddGet [] a.2 sym1).2)) (v, d)).2) j = lookupD [] d j) := by
  intro l
  induction l with
  | nil =>
      intro v d nps _
      exact ⟨rfl, fun j => rfl⟩
  | cons x xs ih =>
      intro v d nps hnps
      rw [List.foldl_cons, List.foldl_cons]
      have hfst : (ddGet [] d sym1).1 = nps := by
        rw [ddGet_fst]
        exact hnps
      have hsnd : lookupD [] (ddGet [] d sym1).2 sym1 = nps := by
        rw [lookupD_ddGet_snd]
        exact hnps
      obtain ⟨ih1, ih2⟩ := ih
        (if x ∈ (ddGet [] d sym1).1 then flagLin v (msgF x) else v)
        (ddGet [] d sym1).2 nps hsnd
      constructor
      · rw [ih1, hfst]
      · intro j
        rw [ih2 j, lookupD_ddGet_snd]

theorem npfold_fst (sym1 : String) (msgF : String → String) (l : List String)
    (d : Dict (List String)) (v : Verdict) :
    (l.foldl (fun (a : Verdict × Dict (List String)) x =>
        ((if x ∈ (ddGet [] a.2 sym1).1 then flagLin a.1 (msgF x) else a.1),
         (ddGet [] a.2 sym1).2)) (v, d)).1
      = l.foldl (fun v x =>
          if x ∈ lookupD [] d sym1 then flagLin v (msgF x) else v) v :=
  (npfold_norm sym1 msgF l v d (lookupD [] d sym1) rfl).1

theorem npfold_snd (sym1 : String) (msgF : String → String) (l : List String)
    (d : Dict (List String)) (v : Verdict) (j : String) :
    lookupD []
        ((l.foldl (fun (a : Verdict × Dict (List String)) x =>
          ((if x ∈ (ddGet [] a.2 sym1).1 then flagLin a.1 (msgF x) else a.1),
           (ddGet [] a.2 sym1).2)) (v, d)).2) j = lookupD [] d j :=
  (npfold_norm sym1 msgF l v d (lookupD [] d sym1) rfl).2 j

theorem classifyPos_error_of_mp_none {line : List String} {v : Verdict}
    {st : AGLearner} {p : Nat × String}
    (h : dGet? st.mustprecede p.2 = none) :
    classifyPos line (v, st) p = .error ("KeyError: " ++ p.2) := by
  simp only [classifyPos, h]

theorem classifyPos_error_of_mf_none {line : List String} {v : Verdict}
    {st : AGLearner} {p : Nat × String}
    (h : dGet? st.mustfollow p.2 = none) :
    classifyPos line (v, st) p = .error ("KeyError: " ++ p.2) := by
  simp only [classifyPos, h]
  cases dGet? st.mustprecede p.2 <;> rfl

theorem classifyPos_ok_of_isSome {line : List String} {v : Verdict}
    {st : AGLearner} {p : Nat × String}
    (hmp : (dGet? st.mustprecede p.2).isSome)
    (hmf : (dGet? st.mustfollow p.2).isSome) :
    ∃ r, classifyPos line (v, st) p = .ok r := by
  simp only [classifyPos]
  cases h1 : dGet? st.mustprecede p.2 with
  | none => rw [h1] at hmp; cases hmp
  | some mps =>
      cases h2 : dGet? st.mustfollow p.2 with
      | none => rw [h2] at hmf; cases hmf
      | some mfs => exact ⟨_, rfl⟩

theorem classifyPos_ok_spec {line : List String} {v : Verdict} {st : AGLearner}
    {p : Nat × String} {v' : Verdict} {st' : AGLearner}
    (h : classifyPos line (v, st) p = .ok (v', st')) :
    v' = classifyPosV line (exD st p.2) (reqD st p.2) (npD st p.2) (nfD st p.2)
      (mustpD st p.2) (mustfD st p.2) v p ∧
    st'.counts = st.counts ∧ st'.cooccurs = st.cooccurs ∧
    st'.before = st.before ∧ st'.after = st.after ∧
    st'.mustprecede = st.mustprecede ∧ st'.mustfollow = st.mustfollow ∧
    (∀ k, reqD st' k = reqD st k) ∧ (∀ k, exD st' k = exD st k) ∧
    (∀ k, npD st' k = npD st k) ∧ (∀ k, nfD st' k = nfD st k) := by
  simp only [classifyPos] at h
  cases h1 : dGet? st.mustprecede p.2 with
  | none =>
      rw [h1] at h
      exact absurd h (by simp)
  | some mps =>
      rw [h1] at h
      cases h2 : dGet? st.mustfollow p.2 with
      | none =>
          rw [h2] at h
          exact absurd h (by simp)
      | some mfs =>
          rw [h2] at h
          cases h
          have hmps : mustpD st p.2 = mps := by
            simp [mustpD, lookupD, h1]
          have hmfs : mustfD st p.2 = mfs := by
            simp [mustfD, lookupD, h2]
          refine ⟨?_, rfl, rfl, rfl, rfl, rfl, rfl, ?_, ?_, ?_, ?_⟩
          · simp only [classifyPosV, exD, reqD, npD, nfD]
            rw [hmps, hmfs]
            simp only [mustpD, mustfD, lookupD, h1, h2, Option.getD_some]
            rw [npfold_fst, npfold_fst, ddGet_fst, ddGet_fst]
            rfl
          · intro k
            exact lookupD_ddGet_snd [] st.requires p.2 k
          · intro k
            exact lookupD_ddGet_snd [] st.excludes p.2 k
          · intro k
            exact npfold_snd p.2 _ _ _ _ k
          · intro k
            exact npfold_snd p.2 _ _ _ _ k

theorem tablesEqv_refl (s : AGLearner) : tablesEqv s s :=
  ⟨fun _ => rfl, fun _ => rfl, fun _ => rfl, fun _ => rfl, rfl, rfl⟩

theorem tablesEqv_symm {s1 s2 : AGLearner} (h : tablesEqv s1 s2) :
    tablesEqv s2 s1 :=
  ⟨fun k => (h.1 k).symm, fun k => (h.2.1 k).symm, fun k => (h.2.2.1 k).symm,
   fun k => (h.2.2.2.1 k).symm, h.2.2.2.2.1.symm, h.2.2.2.2.2.symm⟩

theorem tablesEqv_trans {s1 s2 s3 : AGLearner} (h : tablesEqv s1 s2)
    (h' : tablesEqv s2 s3) : tablesEqv s1 s3 :=
  ⟨fun k => (h.1 k).trans (h'.1 k), fun k => (h.2.1 k).trans (h'.2.1 k),
   fun k => (h.2.2.1 k).trans (h'.2.2.1 k),
   fun k => (h.2.2.2.1 k).trans (h'.2.2.2.1 k),
   h.2.2.2.2.1.trans h'.2.2.2.2.1, h.2.2.2.2.2.trans h'.2.2.2.2.2⟩

theorem classifyPos_tablesEqv {line : List String} {v : Verdict} {st : AGLearner}
    {p : Nat × String} {v' : Verdict} {st' : AGLearner}
    (h : classifyPos line (v, st) p = .ok (v', st')) : tablesEqv st' st := by
  obtain ⟨_, _, _, _, _, hmp, hmf, hreq, hex, hnp, hnf⟩ := classifyPos_ok_spec h
  exact ⟨hreq, hex, hnp, hnf, hmp, hmf⟩

/-- Classification is a frame: no table value changes, and every field other
than the four defaultdict rule tables is literally untouched. -/
theorem classify_frame {st : AGLearner} {line : List String} {v : Verdict}
    {st' : AGLearner} (h : classify st line = .ok (v, st')) :
    tablesEqv st' st ∧ st'.counts = st.counts ∧ st'.cooccurs = st.cooccurs ∧
    st'.before = st.before ∧ st'.after = st.after ∧
    st'.mustprecede = st.mustprecede ∧ st'.mustfollow = st.mustfollow := by
  have main := @foldlM_induct (Verdict × AGLearner) (Nat × String)
    (classifyPos line)
    (fun acc => tablesEqv acc.2 st ∧ acc.2.counts = st.counts ∧
      acc.2.cooccurs = st.cooccurs ∧ acc.2.before = st.before ∧
      acc.2.after = st.after ∧ acc.2.mustprecede = st.mustprecede ∧
      acc.2.mustfollow = st.mustfollow)
    (enumF 0 line) (initVerdict, st) (v, st') ?_ ?_ h
  · exact main
  · rintro ⟨w, t⟩ p ⟨w', t'⟩ _ ⟨he, hc, hco, hb, ha, hmp, hmf⟩ hstep
    obtain ⟨_, hc', hco', hb', ha', hmp', hmf', hreq', hex', hnp', hnf'⟩ :=
      classifyPos_ok_spec hstep
    exact ⟨tablesEqv_trans ⟨hreq', hex', hnp', hnf', hmp', hmf'⟩ he,
      hc'.trans hc, hco'.trans hco, hb'.trans hb, ha'.trans ha,
      hmp'.trans hmp, hmf'.trans hmf⟩
  · exact ⟨tablesEqv_refl st, rfl, rfl, rfl, rfl, rfl, rfl⟩

/-! ## Claim C3 -/

/-- C3 (amended): classification never changes any rule-table value: every
lookup (with the empty-set default) of requires/excludes/noprecede/nofollow
is unchanged, and the must-precede/must-follow, before/after, counts and
co-occurrence tables are literally untouched.  (The key *sets* of the four
defaultdict tables may grow: a read of an absent key inserts it.) -/
theorem c3_classification_frame {st : AGLearner} {line : List String}
    {v : Verdict} {st' : AGLearner} (h : classify st line = .ok (v, st')) :
    (∀ k, reqD st' k = reqD st k) ∧ (∀ k, exD st' k = exD st k) ∧
    (∀ k, npD st' k = npD st k) ∧ (∀ k, nfD st' k = nfD st k) ∧
    st'.mustprecede = st.mustprecede ∧ st'.mustfollow = st.mustfollow ∧
    st'.before = st.before ∧ st'.after = st.after ∧
    st'.counts = st.counts ∧ st'.cooccurs = st.cooccurs := by
  obtain ⟨⟨hreq, hex, hnp, hnf, hmp, hmf⟩, hc, hco, hb, ha, _, _⟩ :=
    classify_frame h
  exact ⟨hreq, hex, hnp, hnf, hmp, hmf, hb, ha, hc, hco⟩

/-- C3 (counterexample to the claim as stated): after training on the corpus
`a a c d e f g` / `a`, the symbol `a` has neither a Requires nor an Excludes
key; classifying the sequence `a` reads those absent keys and *inserts* them
(with the empty set) into the tables, so the excludes table is not left
exactly unchanged. -/
theorem c3_counterexample :
    dGet? (getOk initLearner
      (trainCorpus [["a", "a", "c", "d", "e", "f", "g"], ["a"]])).excludes
      "a" = none ∧
    isErr (classify (getOk initLearner
      (trainCorpus [["a", "a", "c", "d", "e", "f", "g"], ["a"]])) ["a"]) = false ∧
    dGet? (getOk (initVerdict, initLearner)
      (classify (getOk initLearner
        (trainCorpus [["a", "a", "c", "d", "e", "f", "g"], ["a"]]))
        ["a"])).2.excludes "a" = some [] ∧
    (getOk (initVerdict, initLearner)
      (classify (getOk initLearner
        (trainCorpus [["a", "a", "c", "d", "e", "f", "g"], ["a"]]))
        ["a"])).2.excludes ≠
      (getOk initLearner
        (trainCorpus [["a", "a", "c", "d", "e", "f", "g"], ["a"]])).excludes := by
  set_option maxRecDepth 4000 in
  refine ⟨rfl, rfl, rfl, ?_⟩
  set_option maxRecDepth 4000 in
  decide

/-- C3 (witness for the amended claim at a concrete input). -/
theorem c3_witness :
    (∀ k, reqD (getOk (initVerdict, initLearner)
        (classify (getOk initLearner (trainCorpus [["a", "c"]])) ["a"])).2 k =
      reqD (getOk initLearner (trainCorpus [["a", "c"]])) k) ∧
    (∀ k, exD (getOk (initVerdict, initLearner)
        (classify (getOk initLearner (trainCorpus [["a", "c"]])) ["a"])).2 k =
      exD (getOk initLearner (trainCorpus [["a", "c"]])) k) ∧
    (∀ k, npD (getOk (initVerdict, initLearner)
        (classify (getOk initLearner (trainCorpus [["a", "c"]])) ["a"])).2 k =
      npD (getOk initLearner (trainCorpus [["a", "c"]])) k) ∧
    (∀ k, nfD (getOk (initVerdict, initLearner)
        (classify (getOk initLearner (trainCorpus [["a", "c"]])) ["a"])).2 k =
      nfD (getOk initLearner (trainCorpus [["a", "c"]])) k) ∧
    (getOk (initVerdict, initLearner)
        (classify (getOk initLearner (trainCorpus [["a", "c"]])) ["a"])).2.mustprecede =
      (getOk initLearner (trainCorpus [["a", "c"]])).mustprecede ∧
    (getOk (initVerdict, initLearner)
        (classify (getOk initLearner (trainCorpus [["a", "c"]])) ["a"])).2.mustfollow =
      (getOk initLearner (trainCorpus [["a", "c"]])).mustfollow ∧
    (getOk (initVerdict, initLearner)
        (classify (getOk initLearner (trainCorpus [["a", "c"]])) ["a"])).2.before =
      (getOk initLearner (trainCorpus [["a", "c"]])).before ∧
    (getOk (initVerdict, initLearner)
        (classify (getOk initLearner (trainCorpus [["a", "c"]])) ["a"])).2.after =
      (getOk initLearner (trainCorpus [["a", "c"]])).after ∧
    (getOk (initVerdict, initLearner)
        (classify (getOk initLearner (trainCorpus [["a", "c"]])) ["a"])).2.counts =
      (getOk initLearner (trainCorpus [["a", "c"]])).counts ∧
    (getOk (initVerdict, initLearner)
        (classify (getOk initLearner (trainCorpus [["a", "c"]])) ["a"])).2.cooccurs =
      (getOk initLearner (trainCorpus [["a", "c"]])).cooccurs :=
  @c3_classification_frame (getOk initLearner (trainCorpus [["a", "c"]])) ["a"]
    (getOk (initVerdict, initLearner)
      (classify (getOk initLearner (trainCorpus [["a", "c"]])) ["a"])).1
    (getOk (initVerdict, initLearner)
      (classify (getOk initLearner (trainCorpus [["a", "c"]])) ["a"])).2
    rfl

/-! ## Claim C9 -/

theorem classifyPos_ok_isSome {line : List String} {v : Verdict} {st : AGLearner}
    {p : Nat × String} {r : Verdict × AGLearner}
    (h : classifyPos line (v, st) p = .ok r) :
    (dGet? st.mustprecede p.2).isSome ∧ (dGet? st.mustfollow p.2).isSome := by
  constructor
  · cases hmp : dGet? st.mustprecede p.2 with
    | none =>
        rw [classifyPos_error_of_mp_none hmp] at h
        cases h
    | some _ => rfl
  · cases hmf : dGet? st.mustfollow p.2 with
    | none =>
        rw [classifyPos_error_of_mf_none hmf] at h
        cases h
    | some _ => rfl

theorem mustpD_congr {s1 s2 : AGLearner} (h : s1.mustprecede = s2.mustprecede)
    (k : String) : mustpD s1 k = mustpD s2 k := by
  unfold mustpD
  rw [h]

theorem mustfD_congr {s1 s2 : AGLearner} (h : s1.mustfollow = s2.mustfollow)
    (k : String) : mustfD s1 k = mustfD s2 k := by
  unfold mustfD
  rw [h]

theorem classify_fold_congr {line : List String} :
    ∀ (ps : List (Nat × String)) (v : Verdict) (s1 s2 : AGLearner),
      tablesEqv s1 s2 →
      ∀ (w : Verdict) (t1 : AGLearner),
        ps.foldlM (classifyPos line) (v, s1) = .ok (w, t1) →
        ∃ t2, ps.foldlM (classifyPos line) (v, s2) = .ok (w, t2) := by
  intro ps
  induction ps with
  | nil =>
      intro v s1 s2 _ w t1 h
      rw [List.foldlM_nil] at h
      obtain ⟨hw, ht⟩ : v = w ∧ s1 = t1 := by
        have h' : (Except.ok (v, s1) : Except String (Verdict × AGLearner))
            = .ok (w, t1) := h
        simpa using h'
      subst hw
      exact ⟨s2, by rw [List.foldlM_nil]; rfl⟩
  | cons p ps' ih =>
      intro v s1 s2 he w t1 h
      rw [List.foldlM_cons] at h
      cases hq : classifyPos line (v, s1) p with
      | error e =>
          rw [hq] at h
          exact absurd h (by simp [error_bind])
      | ok r1 =>
          rw [hq, ok_bind] at h
          obtain ⟨v1, t1'⟩ := r1
          obtain ⟨hmp1, hmf1⟩ := classifyPos_ok_isSome hq
          have hmp2 : (dGet? s2.mustprecede p.2).isSome := by
            rw [← he.2.2.2.2.1]
            exact hmp1
          have hmf2 : (dGet? s2.mustfollow p.2).isSome := by
            rw [← he.2.2.2.2.2]
            exact hmf1
          obtain ⟨r2, hq2⟩ :=
            @classifyPos_ok_of_isSome line v s2 p hmp2 hmf2
          obtain ⟨v2, t2'⟩ := r2
          obtain ⟨hv1, _, _, _, _, _, _, _⟩ := classifyPos_ok_spec hq
          obtain ⟨hv2, _, _, _, _, _, _, _⟩ := classifyPos_ok_spec hq2
          have hvv : v2 = v1 := by
            rw [hv1, hv2, he.1 p.2, he.2.1 p.2, he.2.2.1 p.2, he.2.2.2.1 p.2,
              mustpD_congr he.2.2.2.2.1 p.2, mustfD_congr he.2.2.2.2.2 p.2]
          subst hvv
          have he' : tablesEqv t1' t2' :=
            tablesEqv_trans (classifyPos_tablesEqv hq)
              (tablesEqv_trans he (tablesEqv_symm (classifyPos_tablesEqv hq2)))
          obtain ⟨t2'', hfold2⟩ := ih v2 t1' t2' he' w t1 h
          exact ⟨t2'', by rw [List.foldlM_cons, hq2, ok_bind, hfold2]⟩

/-- C9: classification is idempotent and deterministic.  The embedding is a
pure function, so classifying twice against the same tables is trivially
equal; the substantive statement proved here is that classifying the same
sequence again, against the state returned by the first classification
(which may have inserted empty-set defaults), yields the identical verdict
bundle. -/
theorem c9_idempotent {st : AGLearner} {line : List String} {v : Verdict}
    {st1 : AGLearner} (h : classify st line = .ok (v, st1)) :
    ∃ st2, classify st1 line = .ok (v, st2) := by
  have hfr := (classify_frame h).1
  unfold classify at h ⊢
  exact classify_fold_congr (enumF 0 line) initVerdict st st1
    (tablesEqv_symm hfr) v st1 h

/-- C9 (witness at a concrete input). -/
theorem c9_witness :
    ∃ st2, classify (getOk (initVerdict, initLearner)
        (classify (getOk initLearner (trainCorpus [["a", "c"]])) ["a", "c"])).2
        ["a", "c"] =
      .ok ((getOk (initVerdict, initLearner)
        (classify (getOk initLearner (trainCorpus [["a", "c"]])) ["a", "c"])).1,
        st2) :=
  @c9_idempotent (getOk initLearner (trainCorpus [["a", "c"]])) ["a", "c"]
    (getOk (initVerdict, initLearner)
      (classify (getOk initLearner (trainCorpus [["a", "c"]])) ["a", "c"])).1
    (getOk (initVerdict, initLearner)
      (classify (getOk initLearner (trainCorpus [["a", "c"]])) ["a", "c"])).2
    rfl

/-! ## Claim C10 -/

theorem setAdd_ne_nil (s : List String) (x : String) : setAdd s x ≠ [] := by
  unfold setAdd
  split
  · rename_i hmem
    intro hc
    rw [hc] at hmem
    exact List.not_mem_nil x hmem
  · simp

theorem flagCo_inv {v : Verdict} (h : okIffNoReasons v) (r : String) :
    okIffNoReasons (flagCo v r) := by
  unfold flagCo
  constructor
  · simp [setAdd_ne_nil]
  · exact h.2

theorem flagLin_inv {v : Verdict} (h : okIffNoReasons v) (r : String) :
    okIffNoReasons (flagLin v r) := by
  unfold flagLin
  constructor
  · exact h.1
  · simp [setAdd_ne_nil]

theorem classifyPosV_inv {line : List String}
    {exs reqs nps nfs mps mfs : List String} {v : Verdict} {p : Nat × String}
    (h : okIffNoReasons v) :
    okIffNoReasons (classifyPosV line exs reqs nps nfs mps mfs v p) := by
  unfold classifyPosV
  refine foldl_induct _ _ (fun b x _ hb => flagLin_inv hb _) ?_
  refine foldl_induct _ _ (fun b x _ hb => flagLin_inv hb _) ?_
  refine foldl_induct _ _ (fun b x _ hb => ?_) ?_
  · split
    · exact flagLin_inv hb _
    · exact hb
  refine foldl_induct _ _ (fun b x _ hb => ?_) ?_
  · split
    · exact flagLin_inv hb _
    · exact hb
  refine foldl_induct _ _ (fun b x _ hb => flagCo_inv hb _) ?_
  exact foldl_induct _ _ (fun b x _ hb => flagCo_inv hb _) h

/-- C10: the co-occurrence verdict flag is true iff its reason set is empty,
and likewise for the linear-order verdict: flags start true with no reasons,
and every violation recorded adds a reason while clearing the flag. -/
theorem c10_ok_iff_no_reasons {st : AGLearner} {line : List String}
    {v : Verdict} {st' : AGLearner} (h : classify st line = .ok (v, st')) :
    (v.cooccur_ok = true ↔ v.cooccur_reasons = []) ∧
    (v.linear_ok = true ↔ v.linear_reasons = []) := by
  have main := @foldlM_induct (Verdict × AGLearner) (Nat × String)
    (classifyPos line) (fun acc => okIffNoReasons acc.1)
    (enumF 0 line) (initVerdict, st) (v, st') ?_ ?_ h
  · exact main
  · rintro ⟨w, t⟩ p ⟨w', t'⟩ _ hb hstep
    have hw := (classifyPos_ok_spec hstep).1
    show okIffNoReasons w'
    rw [hw]
    exact classifyPosV_inv hb
  · exact ⟨by simp [initVerdict], by simp [initVerdict]⟩

/-- C10 (witness at a concrete input). -/
theorem c10_witness :
    ((getOk (initVerdict, initLearner)
        (classify (getOk initLearner (trainCorpus [["a", "c"]]))
          ["a", "g"])).1.cooccur_ok = true ↔
      (getOk (initVerdict, initLearner)
        (classify (getOk initLearner (trainCorpus [["a", "c"]]))
          ["a", "g"])).1.cooccur_reasons = []) ∧
    ((getOk (initVerdict, initLearner)
        (classify (getOk initLearner (trainCorpus [["a", "c"]]))
          ["a", "g"])).1.linear_ok = true ↔
      (getOk (initVerdict, initLearner)
        (classify (getOk initLearner (trainCorpus [["a", "c"]]))
          ["a", "g"])).1.linear_reasons = []) :=
  @c10_ok_iff_no_reasons (getOk initLearner (trainCorpus [["a", "c"]]))
    ["a", "g"]
    (getOk (initVerdict, initLearner)
      (classify (getOk initLearner (trainCorpus [["a", "c"]])) ["a", "g"])).1
    (getOk (initVerdict, initLearner)
      (classify (getOk initLearner (trainCorpus [["a", "c"]])) ["a", "g"])).2
    rfl

/-! ## Claim C8 -/

theorem VMono_refl (v : Verdict) : VMono v v :=
  ⟨fun h => h, fun _ h => h, fun h => h, fun _ h => h⟩

theorem VMono_trans {u v w : Verdict} (h : VMono u v) (h' : VMono v w) :
    VMono u w :=
  ⟨fun hh => h'.1 (h.1 hh), fun r hr => h'.2.1 r (h.2.1 r hr),
   fun hh => h'.2.2.1 (h.2.2.1 hh), fun r hr => h'.2.2.2 r (h.2.2.2 r hr)⟩

theorem VMono_flagCo (v : Verdict) (r : String) : VMono v (flagCo v r) := by
  refine ⟨fun _ => rfl, ?_, fun h => h, fun _ h => h⟩
  intro q hq
  show q ∈ setAdd v.cooccur_reasons r
  exact mem_setAdd.2 (Or.inl hq)

theorem VMono_flagLin (v : Verdict) (r : String) : VMono v (flagLin v r) := by
  refine ⟨fun h => h, fun _ h => h, fun _ => rfl, ?_⟩
  intro q hq
  show q ∈ setAdd v.linear_reasons r
  exact mem_setAdd.2 (Or.inl hq)

theorem VMono_foldl {f : Verdict → String → Verdict}
    (hf : ∀ b x, VMono b (f b x)) :
    ∀ (l : List String) (v : Verdict), VMono v (l.foldl f v) := by
  intro l
  induction l with
  | nil => intro v; exact VMono_refl v
  | cons x xs ih =>
      intro v
      exact VMono_trans (hf v x) (ih (f v x))

theorem VMono_classifyPosV {line : List String}
    {exs reqs nps nfs mps mfs : List String} (v : Verdict) (p : Nat × String) :
    VMono v (classifyPosV line exs reqs nps nfs mps mfs v p) := by
  unfold classifyPosV
  refine VMono_trans (VMono_trans (VMono_trans (VMono_trans (VMono_trans
    (VMono_foldl (fun b x => VMono_flagCo b _) _ v)
    (VMono_foldl (fun b x => VMono_flagCo b _) _ _))
    (VMono_foldl (fun b x => ?_) _ _))
    (VMono_foldl (fun b x => ?_) _ _))
    (VMono_foldl (fun b x => VMono_flagLin b _) _ _))
    (VMono_foldl (fun b x => VMono_flagLin b _) _ _)
  · split
    · exact VMono_flagLin b _
    · exact VMono_refl b
  · split
    · exact VMono_flagLin b _
    · exact VMono_refl b

theorem foldl_flagCo_hit (msgF : String → String) :
    ∀ (l : List String) (v : Verdict) (x : String), x ∈ l →
      (l.foldl (fun v y => flagCo v (msgF y)) v).cooccur_ok = false ∧
      msgF x ∈ (l.foldl (fun v y => flagCo v (msgF y)) v).cooccur_reasons := by
  intro l
  induction l with
  | nil =>
      intro v x hx
      exact absurd hx (List.not_mem_nil x)
  | cons y ys ih =>
      intro v x hx
      rw [List.foldl_cons]
      rcases List.mem_cons.1 hx with rfl | hx'
      · have hmono := VMono_foldl
          (fun b z => VMono_flagCo b (msgF z)) ys (flagCo v (msgF x))
        refine ⟨hmono.1 rfl, hmono.2.1 _ ?_⟩
        show msgF x ∈ setAdd v.cooccur_reasons (msgF x)
        exact mem_setAdd.2 (Or.inr rfl)
      · exact ih (flagCo v (msgF y)) x hx'

theorem VMono_condFlagLin (nps : List String) (msgF : String → String)
    (b : Verdict) (x : String) :
    VMono b (if x ∈ nps then flagLin b (msgF x) else b) := by
  split
  · exact VMono_flagLin b _
  · exact VMono_refl b

/-- If an excluded symbol is present among the other symbols at a position,
the pure position check reports `ok = false` with the literal reason. -/
theorem classifyPosV_excl_hit {line : List String}
    {exs reqs nps nfs mps mfs : List String} {v : Verdict} {p : Nat × String}
    {sym2 : String}
    (hmem : sym2 ∈ setInter exs
      (setUnion (pySet (line.take p.1)) (pySet (line.drop (p.1 + 1))))) :
    (classifyPosV line exs reqs nps nfs mps mfs v p).cooccur_ok = false ∧
    (p.2 ++ " excludes " ++ sym2) ∈
      (classifyPosV line exs reqs nps nfs mps mfs v p).cooccur_reasons := by
  have hhit := foldl_flagCo_hit (fun z => p.2 ++ " excludes " ++ z)
    (setInter exs
      (setUnion (pySet (line.take p.1)) (pySet (line.drop (p.1 + 1)))))
    v sym2 hmem
  have hmono : VMono
      ((setInter exs
        (setUnion (pySet (line.take p.1)) (pySet (line.drop (p.1 + 1))))).foldl
        (fun w y => flagCo w (p.2 ++ " excludes " ++ y)) v)
      (classifyPosV line exs reqs nps nfs mps mfs v p) := by
    unfold classifyPosV
    refine VMono_trans ?_ (VMono_foldl (fun b x => VMono_flagLin b _) _ _)
    refine VMono_trans ?_ (VMono_foldl (fun b x => VMono_flagLin b _) _ _)
    refine VMono_trans ?_
      (VMono_foldl (fun b x =>
        VMono_condFlagLin nfs (fun z => z ++ " cannot follow " ++ p.2) b x) _ _)
    refine VMono_trans ?_
      (VMono_foldl (fun b x =>
        VMono_condFlagLin nps (fun z => z ++ " cannot precede " ++ p.2) b x) _ _)
    exact VMono_foldl (fun b x => VMono_flagCo b _) _ _
  exact ⟨hmono.1 hhit.1, hmono.2.1 _ hhit.2⟩

/-- C8: for any trained state whose Excludes set for `a` contains `g`,
classifying `a g` yields a co-occurrence verdict with `ok = false` whose
reason set contains exactly the string `"a excludes g"` (formatted as
`A excludes B` for excluding symbol `A` and excluded symbol `B`). -/
theorem c8_excludes_reason {corpus : List (List String)} {st : AGLearner}
    (h : trainCorpus corpus = .ok st) (hg : "g" ∈ exD st "a") :
    ∃ v st', classify st ["a", "g"] = .ok (v, st') ∧
      v.cooccur_ok = false ∧ "a excludes g" ∈ v.cooccur_reasons := by
  have hdom := domsOK_trainCorpus h
  have hmp1 : (dGet? st.mustprecede "a").isSome :=
    (hdom.2.2.1 "a").2 (by decide)
  have hmf1 : (dGet? st.mustfollow "a").isSome :=
    (hdom.2.2.2 "a").2 (by decide)
  obtain ⟨r1, hr1⟩ :=
    @classifyPos_ok_of_isSome ["a", "g"] initVerdict st (0, "a") hmp1 hmf1
  obtain ⟨w1, t1⟩ := r1
  have hspec1 := classifyPos_ok_spec hr1
  have hw1 : w1.cooccur_ok = false ∧ "a excludes g" ∈ w1.cooccur_reasons := by
    rw [hspec1.1]
    have hmem : "g" ∈ setInter (exD st "a")
        (setUnion (pySet ((["a", "g"] : List String).take 0))
          (pySet ((["a", "g"] : List String).drop 1))) := by
      rw [mem_setInter]
      refine ⟨hg, ?_⟩
      decide
    exact classifyPosV_excl_hit hmem
  have hmp2 : (dGet? t1.mustprecede "g").isSome := by
    rw [hspec1.2.2.2.2.2.1]
    exact (hdom.2.2.1 "g").2 (by decide)
  have hmf2 : (dGet? t1.mustfollow "g").isSome := by
    rw [hspec1.2.2.2.2.2.2.1]
    exact (hdom.2.2.2 "g").2 (by decide)
  obtain ⟨r2, hr2⟩ :=
    @classifyPos_ok_of_isSome ["a", "g"] w1 t1 (1, "g") hmp2 hmf2
  obtain ⟨w2, t2⟩ := r2
  have hspec2 := classifyPos_ok_spec hr2
  have hmono : VMono w1 w2 := by
    rw [hspec2.1]
    exact VMono_classifyPosV w1 (1, "g")
  refine ⟨w2, t2, ?_, hmono.1 hw1.1, hmono.2.1 _ hw1.2⟩
  show (enumF 0 ["a", "g"]).foldlM (classifyPos ["a", "g"])
    (initVerdict, st) = .ok (w2, t2)
  have henum : enumF 0 (["a", "g"] : List String) = [(0, "a"), (1, "g")] := rfl
  rw [henum, List.foldlM_cons, hr1, ok_bind, List.foldlM_cons, hr2, ok_bind,
    List.foldlM_nil]
  rfl

/-- C8 (witness at a concrete input): training on `a` / `g` makes `a`
exclude `g`. -/
theorem c8_witness :
    ∃ v st', classify (getOk initLearner (trainCorpus [["a"], ["g"]]))
        ["a", "g"] = .ok (v, st') ∧
      v.cooccur_ok = false ∧ "a excludes g" ∈ v.cooccur_reasons :=
  @c8_excludes_reason [["a"], ["g"]]
    (getOk initLearner (trainCorpus [["a"], ["g"]])) rfl (by decide)

/-! ## Claim C2 -/

/-- C2 (counterexample to the claim as stated): after training on `a c`
(which succeeds), classifying the sequence `x` — whose token is outside the
declared alphabet — raises a `KeyError` (the must-precede table is keyed only
by the alphabet) instead of completing without error. -/
theorem c2_counterexample :
    isErr (trainCorpus [["a", "c"]]) = false ∧
    isErr (classify (getOk initLearner (trainCorpus [["a", "c"]])) ["x"]) = true := by
  exact ⟨rfl, rfl⟩

/-- C2 (amended): out-of-alphabet tokens never populate the alphabet-indexed
tables and no rule fires for them, but they are not tolerated by the
classifier: classifying any sequence containing a token outside the alphabet
raises a `KeyError` at the must-precede lookup (and training raises a
`KeyError` whenever an out-of-alphabet token occurs in a line together with
any other token). -/
theorem c2_ooa_classify_error {corpus : List (List String)} {st : AGLearner}
    {line : List String} {t : String} (h : trainCorpus corpus = .ok st)
    (ht : t ∈ line) (hns : t ∉ SYMBOLS) :
    ∃ e, classify st line = .error e := by
  have hdom := domsOK_trainCorpus h
  unfold classify
  obtain ⟨i, hi⟩ := exists_enumF_of_mem ht 0
  refine @foldlM_error_of_bad (Verdict × AGLearner) (Nat × String)
    (classifyPos line)
    (fun acc => ∀ j, (dGet? acc.2.mustprecede j).isSome ↔ j ∈ SYMBOLS)
    (enumF 0 line) (initVerdict, st) ?_ ?_ ⟨(i, t), hi, ?_⟩
  · rintro ⟨w, s⟩ p ⟨w', s'⟩ _ hb hstep
    intro j
    rw [(classifyPos_ok_spec hstep).2.2.2.2.2.1]
    exact hb j
  · exact hdom.2.2.1
  · rintro ⟨w, s⟩ hb
    have hnone : dGet? s.mustprecede t = none := by
      cases hg : dGet? s.mustprecede t with
      | none => rfl
      | some x =>
          exact absurd ((hb t).1 (by rw [hg]; rfl)) hns
    exact ⟨"KeyError: " ++ t, classifyPos_error_of_mp_none hnone⟩

/-- C2 (witness for the amended claim at a concrete input). -/
theorem c2_witness :
    ∃ e, classify (getOk initLearner (trainCorpus [["a", "c"]]))
      ["a", "x", "c"] = .error e :=
  @c2_ooa_classify_error [["a", "c"]]
    (getOk initLearner (trainCorpus [["a", "c"]])) ["a", "x", "c"] "x" rfl
    (by decide) (by decide)

end AGLearn
